import Mathlib

/-!
Verification of the schema-driven frame normalizer (`cast_dataframe` in
`athena_table.py`).  A frame is an ordered association list from column
names to columns (ordered lists of scalar values).  The normalizer walks
the catalog schema in order; for every schema column also present in the
frame it (1) coerces temporal columns via `pandas.to_datetime`, (2) applies
the chained fixed-width zero-padding rules, and (3) casts the column to the
schema-declared type, mutating the frame in place after each phase.

The helpers `zfill` and `cast_series_type` are referenced by the source but
not defined in it, and `pandas.to_datetime` is an external library
function; those three are modelled from the specification's words (see the
doc comments on `zfill`, `castVal` and `to_datetime`).
-/

set_option maxHeartbeats 1000000

namespace AthenaTable

/-! ## Decimal strings -/

/-- The decimal digit character for `d < 10` (used to model Python's
`str(int)` rendering). -/
def digitChar (d : Nat) : Char :=
  match d with
  | 0 => '0' | 1 => '1' | 2 => '2' | 3 => '3' | 4 => '4'
  | 5 => '5' | 6 => '6' | 7 => '7' | 8 => '8' | _ => '9'

/-- Numeric value of a digit character. -/
def digitVal (c : Char) : Nat := c.toNat - 48

/-- Whether a character is a decimal digit. -/
def isDigitC (c : Char) : Bool := 48 ≤ c.toNat && c.toNat ≤ 57

/-- Fuel-driven decimal rendering (structural recursion, so that concrete
values reduce inside the kernel). -/
def natRenderGo : Nat → Nat → List Char
  | 0, _ => []
  | fuel + 1, n =>
    if n < 10 then [digitChar n]
    else natRenderGo fuel (n / 10) ++ [digitChar (n % 10)]

/-- Decimal rendering of a natural number, most significant digit first. -/
def natRenderAux (n : Nat) : List Char := natRenderGo (n + 1) n

/-- Decimal rendering of a natural number as a string (`str(n)` for
nonnegative `n`). -/
def natRender (n : Nat) : String := String.mk (natRenderAux n)

/-- Value of a digit list read most-significant-first. -/
def parseDigits (l : List Char) : Nat :=
  l.foldl (fun a c => a * 10 + digitVal c) 0

/-- Strict decimal parse of a character list: succeeds only on a nonempty
all-digit list. -/
def parseNatList (l : List Char) : Option Nat :=
  if l ≠ [] ∧ l.all isDigitC then some (parseDigits l) else none

/-- Strict decimal parse of a string. -/
def parseNatStr (s : String) : Option Nat := parseNatList s.data

theorem digitVal_digitChar {d : Nat} (h : d < 10) : digitVal (digitChar d) = d := by
  interval_cases d <;> decide

theorem isDigitC_digitChar {d : Nat} (h : d < 10) : isDigitC (digitChar d) = true := by
  interval_cases d <;> decide

theorem parseDigits_append (l : List Char) (c : Char) :
    parseDigits (l ++ [c]) = parseDigits l * 10 + digitVal c := by
  simp [parseDigits, List.foldl_append]

theorem natRenderGo_spec :
    ∀ fuel n, n < fuel →
      natRenderGo fuel n ≠ [] ∧ (natRenderGo fuel n).all isDigitC = true ∧
        parseDigits (natRenderGo fuel n) = n := by
  intro fuel
  induction fuel with
  | zero => intro n h; omega
  | succ fuel ih =>
    intro n h
    rw [natRenderGo]
    split
    · next hlt =>
      exact ⟨by simp, by simp [isDigitC_digitChar hlt], by simp [parseDigits, digitVal_digitChar hlt]⟩
    · next hge =>
      have hdiv : n / 10 < fuel := by
        have h1 : n / 10 < n := Nat.div_lt_self (by omega) (by omega)
        omega
      obtain ⟨ih1, ih2, ih3⟩ := ih (n / 10) hdiv
      refine ⟨by simp, ?_, ?_⟩
      · rw [List.all_append]
        have h2 := isDigitC_digitChar (d := n % 10) (Nat.mod_lt _ (by omega))
        simp [ih2, h2]
      · rw [parseDigits_append, ih3, digitVal_digitChar (Nat.mod_lt _ (by omega))]
        omega

theorem natRenderAux_ne_nil (n : Nat) : natRenderAux n ≠ [] :=
  (natRenderGo_spec (n + 1) n (by omega)).1

theorem natRenderAux_digits (n : Nat) : (natRenderAux n).all isDigitC = true :=
  (natRenderGo_spec (n + 1) n (by omega)).2.1

theorem parseDigits_natRenderAux (n : Nat) : parseDigits (natRenderAux n) = n :=
  (natRenderGo_spec (n + 1) n (by omega)).2.2

theorem parseNatList_natRenderAux (n : Nat) : parseNatList (natRenderAux n) = some n := by
  simp [parseNatList, natRenderAux_ne_nil, natRenderAux_digits, parseDigits_natRenderAux]

/-- Zero-padding preserves the all-digits property and the parsed value. -/
theorem parseDigits_zeros (k : Nat) (l : List Char) :
    parseDigits (List.replicate k '0' ++ l) = parseDigits l := by
  induction k with
  | zero => simp
  | succ k ih =>
    have : List.replicate (k + 1) '0' ++ l = '0' :: (List.replicate k '0' ++ l) := by
      simp [List.replicate_succ]
    rw [this]
    have h0 : ∀ m : List Char, List.foldl (fun a c => a * 10 + digitVal c) 0 ('0' :: m)
        = List.foldl (fun a c => a * 10 + digitVal c) 0 m := by
      intro m
      simp [digitVal]
    simpa [parseDigits] using (h0 (List.replicate k '0' ++ l)).trans (by simpa [parseDigits] using ih)

theorem parseNatList_zeros (k : Nat) (l : List Char) (h : parseNatList l = some n) :
    parseNatList (List.replicate k '0' ++ l) = some n := by
  unfold parseNatList at h ⊢
  split at h
  · next hc =>
    obtain ⟨hne, hall⟩ := hc
    have hall2 : (List.replicate k '0' ++ l).all isDigitC = true := by
      rw [List.all_append]
      have hz : (List.replicate k '0').all isDigitC = true := by
        simp [List.all_replicate]
        exact Or.inr (by decide)
      simp [hz, hall]
    rw [if_pos ⟨by simp [hne], hall2⟩, parseDigits_zeros]
    simpa using h
  · exact absurd h (by simp)

/-! ## Strings -/

/-- Left-pad a string with `'0'` characters to width `w`; strings already
at or beyond the width are returned unchanged. -/
def padZeros (w : Nat) (s : String) : String :=
  String.mk (List.replicate (w - s.length) '0' ++ s.data)

theorem length_mk (l : List Char) : (String.mk l).length = l.length := rfl

theorem data_mk (l : List Char) : (String.mk l).data = l := rfl

theorem mk_data (s : String) : String.mk s.data = s := rfl

theorem length_eq_data (s : String) : s.length = s.data.length := rfl

theorem padZeros_of_le {w : Nat} {s : String} (h : w ≤ s.length) : padZeros w s = s := by
  unfold padZeros
  rw [Nat.sub_eq_zero_of_le h]
  simp [mk_data]

theorem length_padZeros (w : Nat) (s : String) :
    (padZeros w s).length = max w s.length := by
  unfold padZeros
  rw [length_mk, List.length_append, List.length_replicate, ← length_eq_data]
  omega

theorem data_padZeros (w : Nat) (s : String) :
    (padZeros w s).data = List.replicate (w - s.length) '0' ++ s.data := rfl

/-- Whether `pat` occurs at the very start of `l`. -/
def startsList : List Char → List Char → Bool
  | [], _ => true
  | _ :: _, [] => false
  | p :: ps, c :: cs => p = c && startsList ps cs

/-- Whether `pat` occurs as a contiguous run anywhere in `l`. -/
def hasRun : List Char → List Char → Bool
  | pat, [] => startsList pat []
  | pat, c :: t => startsList pat (c :: t) || hasRun pat t

/-- Python-style substring test (`str.__contains__`). -/
def strContains (s pat : String) : Bool := hasRun pat.data s.data

/-- Python-style suffix test (`str.endswith`). -/
def strEndsWith (s suf : String) : Bool :=
  decide (List.drop (s.data.length - suf.data.length) s.data = suf.data)

/-! ## Values -/

/-- A scalar cell value of a frame: an integer, a string, or a typed
timestamp (the result of temporal coercion), identified by a numeric
encoding of its calendar date. -/
inductive Val where
  | vint (n : Int)
  | vstr (s : String)
  | vdate (d : Nat)
  deriving DecidableEq

/-- Errors surfaced by normalization, per the spec's §7. -/
inductive Err where
  | parseError
  | typeCoercionError
  deriving DecidableEq

def exceptDecEq {α β : Type} [DecidableEq α] [DecidableEq β] :
    (x y : Except α β) → Decidable (x = y)
  | .error a, .error b =>
    if h : a = b then .isTrue (by rw [h]) else .isFalse (fun hc => by cases hc; exact h rfl)
  | .error _, .ok _ => .isFalse (fun hc => by cases hc)
  | .ok _, .error _ => .isFalse (fun hc => by cases hc)
  | .ok a, .ok b =>
    if h : a = b then .isTrue (by rw [h]) else .isFalse (fun hc => by cases hc; exact h rfl)

instance {α β : Type} [DecidableEq α] [DecidableEq β] : DecidableEq (Except α β) :=
  exceptDecEq

/-- Python's `str(int)` decimal rendering, signs included. -/
def intRender (n : Int) : String :=
  if n < 0 then String.mk ('-' :: natRenderAux n.natAbs) else natRender n.natAbs

/-- Rendering of a typed timestamp value as a string, as `str()` of a
timestamp would produce: an injective tagged form that `to_datetime`
re-parses to the same timestamp (mirroring `str(pandas.Timestamp)`, which
`pandas.to_datetime` round-trips); always at least 19 characters long,
like the real `YYYY-MM-DD HH:MM:SS` rendering. -/
def tsRender (d : Nat) : String :=
  String.mk ('T' :: 'S' :: ':' ::
    (List.replicate (16 - (natRenderAux d).length) '0' ++ natRenderAux d))

/-- The decimal string form of a value (Python `str()`). -/
def toDec : Val → String
  | .vint n => intRender n
  | .vstr s => s
  | .vdate d => tsRender d

/-- Modelled from the spec: the helper `zfill` is called by
`cast_dataframe` but is not defined under `src/`.  Per the spec, padding
means "convert value to its decimal string form, left-pad with `"0"`
characters until the string reaches the target width (values already at or
beyond the width are left unchanged — never truncated)". -/
def zfill (v : Val) (w : Nat) : Val := .vstr (padZeros w (toDec v))

/-- Python's `100 * x` as used by the census-tract rule: multiplication on
integers, hundredfold repetition on strings.  (`100 * Timestamp` would
raise `TypeError` in Python; no claim exercises that corner and it is
modelled as the unchanged value.) -/
def pyMul100 : Val → Val
  | .vint n => .vint (100 * n)
  | .vstr s => .vstr (String.mk (List.flatten (List.replicate 100 s.data)))
  | .vdate d => .vdate d

/-! ## Temporal parsing -/

/-- Strict ISO `YYYY-MM-DD` calendar-date parse, encoding a hit as
`y * 10000 + m * 100 + d`. -/
def isoParse (l : List Char) : Option Nat :=
  match l with
  | [y1, y2, y3, y4, '-', m1, m2, '-', d1, d2] =>
    if ([y1, y2, y3, y4, m1, m2, d1, d2].all isDigitC) then
      let m := parseDigits [m1, m2]
      let dd := parseDigits [d1, d2]
      if 1 ≤ m ∧ m ≤ 12 ∧ 1 ≤ dd ∧ dd ≤ 31 then
        some (parseDigits [y1, y2, y3, y4] * 10000 + m * 100 + dd)
      else none
    else none
  | _ => none

/-- Date/time parse of a string: a rendered timestamp (`tsRender`)
re-parses to the timestamp it renders, and a strict ISO calendar date
parses to its encoding; everything else fails. -/
def parseDate (s : String) : Option Nat :=
  match s.data with
  | 'T' :: 'S' :: ':' :: rest => parseNatList rest
  | l => isoParse l

/-- Modelled from the spec: `pandas.to_datetime` is an external library
function.  Per the spec, temporal coercion "parse[s] every value as a
calendar date/time and store[s it] as a typed timestamp value", and
"parse failures propagate as a `ParseError`".  Existing timestamps pass
through, calendar-date strings parse, everything else raises. -/
def to_datetime : Val → Except Err Val
  | .vdate d => .ok (.vdate d)
  | .vstr s =>
    match parseDate s with
    | some d => .ok (.vdate d)
    | none => .error .parseError
  | .vint _ => .error .parseError

/-! ## The padding rules (`cast_dataframe`, middle block) -/

/-- The temporal-suffix test of `cast_dataframe` (lines 50-56 of the
source): the column name ends with `date`, `_dt`, `_ts`, `_date_time` or
`_timestamp`. -/
def isTemporal (col : String) : Bool :=
  strEndsWith col "date" || strEndsWith col "_dt" || strEndsWith col "_ts" ||
    strEndsWith col "_date_time" || strEndsWith col "_timestamp"

/-- Whether any of the seven padding-rule conditions of `cast_dataframe`
matches the column name. -/
def padMatched (col : String) : Bool :=
  (strContains col "zip_cd" || strContains col "cbsa_cd") ||
    strContains col "cnty_cd" ||
    strContains col "sale_regn_cd" ||
    strContains col "prim_msa_cd" ||
    strContains col "prim_census_tract_cd" ||
    (strContains col "customer_id" || strContains col "_cust_id") ||
    (strContains col "lnprps_cd" || strContains col "uw_desgntn_cd")

/-- The seven padding rules of `cast_dataframe` (lines 58-87 of the
source), applied to one cell value in source order; each rule's
`frame[col] = frame[col].apply(...)` assignment feeds the next rule. -/
def padApply (col : String) (v : Val) : Val :=
  let v1 := if strContains col "zip_cd" || strContains col "cbsa_cd" then zfill v 5 else v
  let v2 := if strContains col "cnty_cd" then zfill v1 3 else v1
  let v3 := if strContains col "sale_regn_cd" then zfill v2 2 else v2
  let v4 := if strContains col "prim_msa_cd" then zfill v3 4 else v3
  let v5 := if strContains col "prim_census_tract_cd" then zfill (pyMul100 v4) 6 else v4
  let v6 := if strContains col "customer_id" || strContains col "_cust_id" then zfill v5 10 else v5
  if strContains col "lnprps_cd" || strContains col "uw_desgntn_cd" then
    (if v6 = Val.vstr "UNK" then v6 else zfill v6 2)
  else v6

/-! ## Type coercion -/

/-- The integer catalog type names. -/
def intTypes : List String := ["int", "bigint", "integer", "smallint", "tinyint"]

/-- Cast of one cell to an integer catalog type. -/
def castInt : Val → Except Err Val
  | .vint n => .ok (.vint n)
  | .vstr s =>
    match parseNatStr s with
    | some k => .ok (.vint (k : Int))
    | none => .error .typeCoercionError
  | .vdate _ => .error .typeCoercionError

/-- Cast of one cell to a temporal catalog type. -/
def castTs : Val → Except Err Val
  | .vdate d => .ok (.vdate d)
  | .vstr s =>
    match parseDate s with
    | some d => .ok (.vdate d)
    | none => .error .typeCoercionError
  | .vint _ => .error .typeCoercionError

/-- Cast of one cell to the boolean catalog type. -/
def castBool : Val → Except Err Val
  | .vstr s =>
    if s = "true" ∨ s = "false" then .ok (.vstr s) else .error .typeCoercionError
  | .vint n => .ok (.vstr (if n = 0 then "false" else "true"))
  | .vdate _ => .error .typeCoercionError

/-- Modelled from the spec: the helper `cast_series_type` is called by
`cast_dataframe` but is not defined under `src/`.  Per the spec's step 3,
it "cast[s] the column's declared storage type to the schema's declared
type using the catalog type vocabulary (string → declared target: integer,
decimal, boolean, date, timestamp, etc.)", and "malformed value for
requested type signals a `TypeCoercionError`".  `castVal` casts one cell;
catalog types outside the modelled vocabulary pass values through. -/
def castVal (v : Val) (ty : String) : Except Err Val :=
  if ty = "string" then .ok (.vstr (toDec v))
  else if intTypes.contains ty then castInt v
  else if ty = "timestamp" ∨ ty = "date" then castTs v
  else if ty = "boolean" then castBool v
  else .ok v

/-- Error-propagating elementwise map over a column (the first failing
row's error is raised, as a vectorized pandas operation does). -/
def mapME (g : Val → Except Err Val) : List Val → Except Err (List Val)
  | [] => .ok []
  | v :: vs =>
    match g v with
    | .error e => .error e
    | .ok w =>
      match mapME g vs with
      | .error e => .error e
      | .ok ws => .ok (w :: ws)

/-- `cast_series_type` on a whole column. -/
def castSeriesType (vs : List Val) (ty : String) : Except Err (List Val) :=
  mapME (castVal · ty) vs

/-! ## Frames -/

/-- A frame: an ordered association list from column names to columns. -/
abbrev Frame := List (String × List Val)

/-- A schema: the catalog's ordered (column name, declared type) pairs
(`glue_definition["Table"]["StorageDescriptor"]["Columns"]`). -/
abbrev Schema := List (String × String)

/-- `column["Name"] in frame.columns`. -/
def hasCol (f : Frame) (c : String) : Bool := f.any (fun p => p.1 = c)

/-- The values of column `c`, when present. -/
def getCol (f : Frame) (c : String) : Option (List Val) :=
  (f.find? (fun p => p.1 = c)).map (fun p => p.2)

/-- `frame[c] = vs`: in-place replacement of column `c`'s values. -/
def setCol (f : Frame) (c : String) (vs : List Val) : Frame :=
  f.map (fun p => if p.1 = c then (c, vs) else p)

/-- The frame state after the temporal phase of one column: the source
assigns `frame[col]` only when the temporal branch was taken. -/
def tempFrame (f : Frame) (col : String) (vs1 : List Val) : Frame :=
  if isTemporal col then setCol f col vs1 else f

/-- The frame state after the padding phase of one column: the source
assigns `frame[col]` once per matched rule; the assignments are total, so
they collapse into one store of the fully-padded column. -/
def padFrame (f : Frame) (col : String) (vs1 : List Val) : Frame :=
  if padMatched col then setCol (tempFrame f col vs1) col (vs1.map (padApply col))
  else tempFrame f col vs1

/-- The cast phase of one column: the final `cast_series_type` assignment,
which can fail after the padded column was already stored. -/
def processColumnCast (f : Frame) (col ty : String) (vs1 : List Val) :
    Except (Err × Frame) Frame :=
  match castSeriesType (vs1.map (padApply col)) ty with
  | .error e => .error (e, padFrame f col vs1)
  | .ok vs3 => .ok (setCol (padFrame f col vs1) col vs3)

/-- The phases of one column after its values were read: the temporal
assignment happens only after `pandas.to_datetime` succeeded on the whole
column; the padding assignments are total; then the cast phase runs. -/
def processColumnAux (f : Frame) (col ty : String) (vs : List Val) :
    Except (Err × Frame) Frame :=
  match (if isTemporal col then mapME to_datetime vs else .ok vs) with
  | .error e => .error (e, f)
  | .ok vs1 => processColumnCast f col ty vs1

/-- One schema column's processing inside `cast_dataframe`'s loop body
(source lines 49-90), on a frame the column belongs to.  Mutations are
modelled faithfully at the granularity at which an exception can strike;
an error carries the frame as the caller sees it at raise time. -/
def processColumn (f : Frame) (col ty : String) : Except (Err × Frame) Frame :=
  match getCol f col with
  | none => .ok f
  | some vs => processColumnAux f col ty vs

/-- `cast_dataframe` (source lines 46-91): walk the schema in order,
process every schema column that exists in the frame, skip the rest.  On
success the fully-normalized frame is returned; on failure the raised
error is paired with the frame as the caller sees it at raise time (the
source mutates the caller's frame in place). -/
def cast_dataframe (schema : Schema) (f : Frame) : Except (Err × Frame) Frame :=
  match schema with
  | [] => .ok f
  | (name, ty) :: rest =>
    if hasCol f name then
      match processColumn f name ty with
      | .error r => .error r
      | .ok f' => cast_dataframe rest f'
    else cast_dataframe rest f

/-- The value-level composite transform `cast_dataframe` applies to one
column present in both frame and schema: optional temporal coercion, the
padding chain, then the always-run type cast. -/
def columnPipeline (col ty : String) (vs : List Val) : Except Err (List Val) :=
  match (if isTemporal col then mapME to_datetime vs else .ok vs) with
  | .error e => .error e
  | .ok vs1 => castSeriesType (vs1.map (padApply col)) ty

/-- The frame the caller sees after a call, whether it returned or raised:
the source mutates the frame in place. -/
def visibleFrame (r : Except (Err × Frame) Frame) : Frame :=
  match r with
  | .ok g => g
  | .error (_, g) => g

/-! ## The padding table as the spec words it

The spec describes the padding block as "an explicit ordered table of
(predicate, width, special-case-transform)" whose matching entries are
applied "in table order (first match's output feeds the next)".  The
following definitions transcribe that description; `padApply` (transcribed
from the source's if-chain) is proved equal to it below. -/

/-- One row of the spec's padding table: a column-name predicate, a target
width, a special-case pre-transform (only the census-tract row has one)
and whether the literal `"UNK"` passes through unpadded (only the
`lnprps_cd`/`uw_desgntn_cd` row). -/
structure PadRule where
  hits : String → Bool
  width : Nat
  pre : Val → Val
  unkGuard : Bool

/-- Apply one table row to a cell value. -/
def applyRule (r : PadRule) (v : Val) : Val :=
  if r.unkGuard ∧ v = Val.vstr "UNK" then v else zfill (r.pre v) r.width

/-- Apply every matching table row in table order, each row's output
feeding the next. -/
def applyRules (rs : List PadRule) (col : String) (v : Val) : Val :=
  rs.foldl (fun u r => if r.hits col then applyRule r u else u) v

/-- The spec's padding table, in table order. -/
def padRules : List PadRule :=
  [ ⟨fun c => strContains c "zip_cd" || strContains c "cbsa_cd", 5, fun v => v, false⟩,
    ⟨fun c => strContains c "cnty_cd", 3, fun v => v, false⟩,
    ⟨fun c => strContains c "sale_regn_cd", 2, fun v => v, false⟩,
    ⟨fun c => strContains c "prim_msa_cd", 4, fun v => v, false⟩,
    ⟨fun c => strContains c "prim_census_tract_cd", 6, pyMul100, false⟩,
    ⟨fun c => strContains c "customer_id" || strContains c "_cust_id", 10, fun v => v, false⟩,
    ⟨fun c => strContains c "lnprps_cd" || strContains c "uw_desgntn_cd", 2, fun v => v, true⟩ ]

/-- The source's if-chain is exactly the table fold. -/
theorem padApply_eq_applyRules (col : String) (v : Val) :
    padApply col v = applyRules padRules col v := by
  simp only [padApply, applyRules, padRules, List.foldl_cons, List.foldl_nil, applyRule]
  simp only [Bool.false_eq_true, false_and, if_false, true_and]

/-! ## Padding lemmas -/

/-- `zfill` always produces a string value. -/
theorem zfill_eq (v : Val) (w : Nat) : zfill v w = .vstr (padZeros w (toDec v)) := rfl

theorem toDec_vstr (s : String) : toDec (.vstr s) = s := rfl

/-- `applyRule` always produces a string value. -/
theorem applyRule_vstr (r : PadRule) (v : Val) : ∃ s, applyRule r v = .vstr s := by
  unfold applyRule
  split
  · next h => exact ⟨"UNK", h.2⟩
  · exact ⟨_, rfl⟩

/-- String values are preserved along the whole table. -/
theorem applyRules_vstr_pres (rs : List PadRule) (col : String) (s : String) :
    ∃ t, applyRules rs col (.vstr s) = .vstr t := by
  induction rs generalizing s with
  | nil => exact ⟨s, rfl⟩
  | cons r rs ih =>
    show ∃ t, applyRules rs col (if r.hits col then applyRule r (.vstr s) else .vstr s) = _
    split
    · obtain ⟨u, hu⟩ := applyRule_vstr r (.vstr s)
      rw [hu]; exact ih u
    · exact ih s

/-- Once some table row matched, the result is a string value. -/
theorem applyRules_vstr (rs : List PadRule) (col : String) (v : Val)
    (h : ∃ r ∈ rs, r.hits col = true) : ∃ t, applyRules rs col v = .vstr t := by
  induction rs generalizing v with
  | nil => obtain ⟨r, hr, _⟩ := h; cases hr
  | cons r rs ih =>
    show ∃ t, applyRules rs col (if r.hits col then applyRule r v else v) = _
    by_cases hm : r.hits col = true
    · rw [if_pos hm]
      obtain ⟨u, hu⟩ := applyRule_vstr r v
      rw [hu]
      exact applyRules_vstr_pres rs col u
    · rw [if_neg hm]
      refine ih v ?_
      obtain ⟨r', hr', hm'⟩ := h
      cases hr' with
      | head => exact absurd hm' hm
      | tail _ hmem => exact ⟨r', hmem, hm'⟩

/-- The invariant a processed value keeps for a matched row `r`: it is a
string value and either long enough for `r`'s width or the guarded
literal `"UNK"`. -/
def RuleInv (r : PadRule) (u : Val) : Prop :=
  ∃ s, u = Val.vstr s ∧ (r.width ≤ s.length ∨ (r.unkGuard = true ∧ s = "UNK"))

/-- A row's `pre` transform keeps strings at least as long as they were
(trivially for the identity rows, by hundredfold repetition for the
census row). -/
def PreMono (r : PadRule) : Prop :=
  ∀ s : String, ∃ t, r.pre (Val.vstr s) = Val.vstr t ∧ s.length ≤ t.length

theorem pyMul100_len (s : String) :
    (String.mk (List.flatten (List.replicate 100 s.data))).length = 100 * s.length := by
  rw [length_mk, List.length_flatten, List.map_replicate, List.sum_replicate,
    smul_eq_mul, length_eq_data]

theorem pyMul100_mono : PreMono ⟨fun c => strContains c "prim_census_tract_cd", 6, pyMul100, false⟩ := by
  intro s
  refine ⟨_, rfl, ?_⟩
  show s.length ≤ (String.mk (List.flatten (List.replicate 100 s.data))).length
  rw [pyMul100_len]
  exact Nat.le_mul_of_pos_left _ (by omega)

theorem padRules_preMono : ∀ r ∈ padRules, PreMono r := by
  intro r hr
  fin_cases hr
  · exact fun s => ⟨s, rfl, le_refl _⟩
  · exact fun s => ⟨s, rfl, le_refl _⟩
  · exact fun s => ⟨s, rfl, le_refl _⟩
  · exact fun s => ⟨s, rfl, le_refl _⟩
  · exact pyMul100_mono
  · exact fun s => ⟨s, rfl, le_refl _⟩
  · exact fun s => ⟨s, rfl, le_refl _⟩

/-- A row other than the census row acts trivially before padding and, when
it guards `"UNK"`, has width at most 3. -/
def RuleOk (r : PadRule) : Prop :=
  (∀ v, r.pre v = v) ∧ (r.unkGuard = true → r.width ≤ 3)

theorem applyRule_RuleInv (r : PadRule) (v : Val) :
    RuleInv r (applyRule r v) := by
  unfold applyRule
  split
  · next h => exact ⟨"UNK", h.2, Or.inr ⟨h.1, rfl⟩⟩
  · refine ⟨padZeros r.width (toDec (r.pre v)), rfl, Or.inl ?_⟩
    rw [length_padZeros]
    omega

theorem RuleInv_step (r r' : PadRule) (col : String) (hr : RuleOk r) (hm : PreMono r')
    (u : Val) (h : RuleInv r u) :
    RuleInv r (if r'.hits col then applyRule r' u else u) := by
  split
  · obtain ⟨s, hu, hd⟩ := h
    subst hu
    unfold applyRule
    split
    · exact ⟨s, rfl, hd⟩
    · obtain ⟨t, hpre, hlen⟩ := hm s
      rw [hpre]
      refine ⟨padZeros r'.width t, rfl, Or.inl ?_⟩
      rw [length_padZeros]
      cases hd with
      | inl h1 => omega
      | inr h2 =>
        have : s.length = 3 := by rw [h2.2]; rfl
        have h3 := hr.2 h2.1
        omega
  · exact h

theorem RuleInv_applyRules (rs : List PadRule) (col : String) (r : PadRule)
    (hr : RuleOk r) (hm : ∀ r' ∈ rs, PreMono r') (u : Val) (h : RuleInv r u) :
    RuleInv r (applyRules rs col u) := by
  induction rs generalizing u with
  | nil => exact h
  | cons r' rs ih =>
    show RuleInv r (applyRules rs col (if r'.hits col then applyRule r' u else u))
    exact ih (fun q hq => hm q (List.mem_cons_of_mem _ hq)) _
      (RuleInv_step r r' col hr (hm r' (List.mem_cons_self _ _)) u h)

theorem applyRule_fix (r : PadRule) (hr : RuleOk r) (u : Val) (h : RuleInv r u) :
    applyRule r u = u := by
  obtain ⟨s, hu, hd⟩ := h
  subst hu
  unfold applyRule
  split
  · rfl
  · next hneg =>
    rw [hr.1, zfill_eq, toDec_vstr]
    cases hd with
    | inl h1 => rw [padZeros_of_le h1]
    | inr h2 =>
      exact absurd ⟨h2.1, by rw [h2.2]⟩ hneg

/-- Every matched row's invariant holds of the table's output. -/
theorem applyRules_inv (rs : List PadRule) (col : String) (v : Val)
    (hok : ∀ r ∈ rs, r.hits col = true → RuleOk r)
    (hm : ∀ r ∈ rs, PreMono r) :
    ∀ r ∈ rs, r.hits col = true → RuleInv r (applyRules rs col v) := by
  induction rs generalizing v with
  | nil => intro r hr; cases hr
  | cons r0 rs ih =>
    intro r hr hmatch
    show RuleInv r (applyRules rs col (if r0.hits col then applyRule r0 v else v))
    cases hr with
    | head =>
      rw [if_pos hmatch]
      exact RuleInv_applyRules rs col r0 (hok r0 (List.mem_cons_self _ _) hmatch)
        (fun q hq => hm q (List.mem_cons_of_mem _ hq)) _
        (applyRule_RuleInv r0 v)
    | tail _ hmem =>
      exact ih _ (fun q hq hq2 => hok q (List.mem_cons_of_mem _ hq) hq2)
        (fun q hq => hm q (List.mem_cons_of_mem _ hq)) r hmem hmatch

/-- A value fixed by every matched row is fixed by the whole table. -/
theorem applyRules_fix (rs : List PadRule) (col : String) (u : Val)
    (hok : ∀ r ∈ rs, r.hits col = true → RuleOk r)
    (h : ∀ r ∈ rs, r.hits col = true → RuleInv r u) :
    applyRules rs col u = u := by
  induction rs with
  | nil => rfl
  | cons r rs ih =>
    show applyRules rs col (if r.hits col then applyRule r u else u) = u
    have hstep : (if r.hits col then applyRule r u else u) = u := by
      split
      · next hm =>
        exact applyRule_fix r (hok r (List.mem_cons_self _ _) hm) u
          (h r (List.mem_cons_self _ _) hm)
      · rfl
    rw [hstep]
    exact ih (fun q hq hq2 => hok q (List.mem_cons_of_mem _ hq) hq2)
      (fun q hq hq2 => h q (List.mem_cons_of_mem _ hq) hq2)

/-- Rows of the table other than the census row are well-behaved. -/
theorem padRules_ok (col : String) (hc : strContains col "prim_census_tract_cd" = false) :
    ∀ r ∈ padRules, r.hits col = true → RuleOk r := by
  intro r hr
  fin_cases hr
  · exact fun _ => ⟨fun v => rfl, by simp⟩
  · exact fun _ => ⟨fun v => rfl, by simp⟩
  · exact fun _ => ⟨fun v => rfl, by simp⟩
  · exact fun _ => ⟨fun v => rfl, by simp⟩
  · intro hm
    exact absurd hm (by simp [hc])
  · exact fun _ => ⟨fun v => rfl, by simp⟩
  · exact fun _ => ⟨fun v => rfl, fun _ => by decide⟩

/-- With the census row unmatched, the padding chain is idempotent. -/
theorem padApply_idem (col : String) (v : Val)
    (hc : strContains col "prim_census_tract_cd" = false) :
    padApply col (padApply col v) = padApply col v := by
  rw [padApply_eq_applyRules, padApply_eq_applyRules]
  exact applyRules_fix padRules col _ (padRules_ok col hc)
    (applyRules_inv padRules col v (padRules_ok col hc) padRules_preMono)

/-! ## Digit-string and timestamp-string invariants of the padding chain -/

/-- The value's decimal string form parses back to `k`. -/
def DInv (k : Nat) (u : Val) : Prop := parseNatStr (toDec u) = some k

theorem DInv_zfill (k : Nat) (w : Nat) (u : Val) (h : DInv k u) : DInv k (zfill u w) := by
  unfold DInv at h ⊢
  rw [zfill_eq, toDec_vstr]
  unfold parseNatStr at h ⊢
  rw [data_padZeros]
  exact parseNatList_zeros _ _ h

theorem DInv_applyRule (r : PadRule) (hpre : ∀ v, r.pre v = v) (k : Nat) (u : Val)
    (h : DInv k u) : DInv k (applyRule r u) := by
  unfold applyRule
  split
  · exact h
  · rw [hpre]
    exact DInv_zfill k r.width u h

theorem DInv_applyRules (rs : List PadRule) (col : String)
    (hok : ∀ r ∈ rs, r.hits col = true → (∀ v, r.pre v = v)) (k : Nat) (u : Val)
    (h : DInv k u) : DInv k (applyRules rs col u) := by
  induction rs generalizing u with
  | nil => exact h
  | cons r rs ih =>
    show DInv k (applyRules rs col (if r.hits col then applyRule r u else u))
    refine ih (fun q hq hq2 => hok q (List.mem_cons_of_mem _ hq) hq2) _ ?_
    split
    · next hm => exact DInv_applyRule r (hok r (List.mem_cons_self _ _) hm) k u h
    · exact h

theorem tsRender_len (d : Nat) : 19 ≤ (tsRender d).length := by
  unfold tsRender
  rw [length_mk]
  simp only [List.length_cons, List.length_append, List.length_replicate]
  omega

theorem toDec_vdate (d : Nat) : toDec (.vdate d) = tsRender d := rfl

/-- A value that is either the timestamp `d` or its string rendering. -/
def TInv (d : Nat) (u : Val) : Prop := u = Val.vdate d ∨ u = Val.vstr (tsRender d)

theorem TInv_applyRule (r : PadRule) (hpre : ∀ v, r.pre v = v) (hw : r.width ≤ 19)
    (d : Nat) (u : Val) (h : TInv d u) : TInv d (applyRule r u) := by
  unfold applyRule
  split
  · exact h
  · rw [hpre]
    cases h with
    | inl h1 =>
      subst h1
      right
      rw [zfill_eq, toDec_vdate, padZeros_of_le (le_trans hw (tsRender_len d))]
    | inr h2 =>
      subst h2
      right
      rw [zfill_eq, toDec_vstr, padZeros_of_le (le_trans hw (tsRender_len d))]

theorem TInv_applyRules (rs : List PadRule) (col : String)
    (hok : ∀ r ∈ rs, r.hits col = true → (∀ v, r.pre v = v) ∧ r.width ≤ 19)
    (d : Nat) (u : Val) (h : TInv d u) : TInv d (applyRules rs col u) := by
  induction rs generalizing u with
  | nil => exact h
  | cons r rs ih =>
    show TInv d (applyRules rs col (if r.hits col then applyRule r u else u))
    refine ih (fun q hq hq2 => hok q (List.mem_cons_of_mem _ hq) hq2) _ ?_
    split
    · next hm =>
      obtain ⟨h1, h2⟩ := hok r (List.mem_cons_self _ _) hm
      exact TInv_applyRule r h1 h2 d u h
    · exact h

theorem padApply_DInv (col : String) (k : Nat) (v : Val)
    (hc : strContains col "prim_census_tract_cd" = false) (h : DInv k v) :
    DInv k (padApply col v) := by
  rw [padApply_eq_applyRules]
  exact DInv_applyRules padRules col
    (fun r hr hm => (padRules_ok col hc r hr hm).1) k v h

theorem padApply_TInv (col : String) (d : Nat) (v : Val)
    (hc : strContains col "prim_census_tract_cd" = false) (h : TInv d v) :
    TInv d (padApply col v) := by
  rw [padApply_eq_applyRules]
  refine TInv_applyRules padRules col ?_ d v h
  intro r hr hm
  refine ⟨(padRules_ok col hc r hr hm).1, ?_⟩
  clear hm
  fin_cases hr <;> decide

/-! ## `padMatched` lemmas -/

theorem padMatched_elim (col : String) (h : padMatched col = false) :
    (strContains col "zip_cd" || strContains col "cbsa_cd") = false ∧
      strContains col "cnty_cd" = false ∧
      strContains col "sale_regn_cd" = false ∧
      strContains col "prim_msa_cd" = false ∧
      strContains col "prim_census_tract_cd" = false ∧
      (strContains col "customer_id" || strContains col "_cust_id") = false ∧
      (strContains col "lnprps_cd" || strContains col "uw_desgntn_cd") = false := by
  unfold padMatched at h
  simp only [Bool.or_eq_false_iff] at h ⊢
  tauto

/-- A column matching no padding rule is left alone by the padding block. -/
theorem padApply_id (col : String) (v : Val) (h : padMatched col = false) :
    padApply col v = v := by
  obtain ⟨h1, h2, h3, h4, h5, h6, h7⟩ := padMatched_elim col h
  simp only [padApply, h1, h2, h3, h4, h5, h6, h7, Bool.false_eq_true, if_false]

theorem padMatched_ex (col : String) (h : padMatched col = true) :
    ∃ r ∈ padRules, r.hits col = true := by
  unfold padMatched at h
  simp only [Bool.or_eq_true] at h
  rcases h with ((((((h | h) | h) | h) | h) | h) | h)
  · refine ⟨_, List.mem_cons_self _ _, ?_⟩
    show (strContains col "zip_cd" || strContains col "cbsa_cd") = true
    simp only [Bool.or_eq_true]
    exact h
  · exact ⟨_, List.mem_cons_of_mem _ (List.mem_cons_self _ _), h⟩
  · exact ⟨_, List.mem_cons_of_mem _ (List.mem_cons_of_mem _ (List.mem_cons_self _ _)), h⟩
  · exact ⟨_, List.mem_cons_of_mem _ (List.mem_cons_of_mem _ (List.mem_cons_of_mem _
      (List.mem_cons_self _ _))), h⟩
  · exact ⟨_, List.mem_cons_of_mem _ (List.mem_cons_of_mem _ (List.mem_cons_of_mem _
      (List.mem_cons_of_mem _ (List.mem_cons_self _ _)))), h⟩
  · refine ⟨_, List.mem_cons_of_mem _ (List.mem_cons_of_mem _ (List.mem_cons_of_mem _
      (List.mem_cons_of_mem _ (List.mem_cons_of_mem _ (List.mem_cons_self _ _))))), ?_⟩
    show (strContains col "customer_id" || strContains col "_cust_id") = true
    simp only [Bool.or_eq_true]
    exact h
  · refine ⟨_, List.mem_cons_of_mem _ (List.mem_cons_of_mem _ (List.mem_cons_of_mem _
      (List.mem_cons_of_mem _ (List.mem_cons_of_mem _ (List.mem_cons_of_mem _
        (List.mem_cons_self _ _)))))), ?_⟩
    show (strContains col "lnprps_cd" || strContains col "uw_desgntn_cd") = true
    simp only [Bool.or_eq_true]
    exact h

/-- A column matching some padding rule always holds strings afterwards. -/
theorem padApply_matched_vstr (col : String) (v : Val) (h : padMatched col = true) :
    ∃ s, padApply col v = .vstr s := by
  rw [padApply_eq_applyRules]
  exact applyRules_vstr _ _ _ (padMatched_ex col h)

/-! ## Round trips -/

theorem parseNatStr_natRender (n : Nat) : parseNatStr (natRender n) = some n := by
  unfold parseNatStr natRender
  rw [data_mk]
  exact parseNatList_natRenderAux n

theorem parseDate_tsRender (d : Nat) : parseDate (tsRender d) = some d := by
  show parseNatList (List.replicate (16 - (natRenderAux d).length) '0' ++ natRenderAux d) = some d
  exact parseNatList_zeros _ _ (parseNatList_natRenderAux d)

theorem DInv_vint (k : Nat) : DInv k (Val.vint (k : Int)) := by
  unfold DInv
  show parseNatStr (intRender (k : Int)) = some k
  unfold intRender
  rw [if_neg (by omega), Int.natAbs_ofNat]
  exact parseNatStr_natRender k

/-! ## List helpers -/

theorem map_id_of {α : Type} {l : List α} {f : α → α} (h : ∀ x ∈ l, f x = x) :
    l.map f = l := by
  induction l with
  | nil => rfl
  | cons x l ih =>
    simp only [List.map_cons]
    rw [h x (List.mem_cons_self _ _), ih (fun y hy => h y (List.mem_cons_of_mem _ hy))]

theorem forall₂_mem_right {α β : Type} {R : α → β → Prop} :
    ∀ {l₁ : List α} {l₂ : List β}, List.Forall₂ R l₁ l₂ → ∀ b ∈ l₂, ∃ a ∈ l₁, R a b := by
  intro l₁ l₂ h
  induction h with
  | nil => intro b hb; cases hb
  | cons h1 _ ih =>
    intro b hb
    cases hb with
    | head => exact ⟨_, List.mem_cons_self _ _, h1⟩
    | tail _ hmem =>
      obtain ⟨a, ha, hr⟩ := ih b hmem
      exact ⟨a, List.mem_cons_of_mem _ ha, hr⟩

theorem forall₂_refl_of {α : Type} {R : α → α → Prop} :
    ∀ {l : List α}, (∀ x ∈ l, R x x) → List.Forall₂ R l l := by
  intro l
  induction l with
  | nil => intro _; exact .nil
  | cons x l ih =>
    intro h
    exact .cons (h x (List.mem_cons_self _ _)) (ih fun y hy => h y (List.mem_cons_of_mem _ hy))

/-! ## `mapME` lemmas -/

theorem mapME_ok_forall (g : Val → Except Err Val) :
    ∀ (vs ws : List Val), mapME g vs = .ok ws →
      List.Forall₂ (fun v w => g v = .ok w) vs ws := by
  intro vs
  induction vs with
  | nil =>
    intro ws h
    cases h
    exact .nil
  | cons v vs ih =>
    intro ws h
    unfold mapME at h
    cases hg : g v with
    | error e => rw [hg] at h; exact absurd h (by simp)
    | ok w =>
      rw [hg] at h
      cases hm : mapME g vs with
      | error e => rw [hm] at h; exact absurd h (by simp)
      | ok ws' =>
        rw [hm] at h
        cases h
        exact List.Forall₂.cons hg (ih ws' hm)

theorem mapME_ok_of_forall (g : Val → Except Err Val) {vs ws : List Val}
    (h : List.Forall₂ (fun v w => g v = .ok w) vs ws) : mapME g vs = .ok ws := by
  induction h with
  | nil => rfl
  | cons h1 _ ih =>
    unfold mapME
    rw [h1, ih]

theorem mapME_error_ex (g : Val → Except Err Val) :
    ∀ (vs : List Val) (e : Err), mapME g vs = .error e → ∃ v ∈ vs, g v = .error e := by
  intro vs
  induction vs with
  | nil => intro e h; exact Except.noConfusion h
  | cons v vs ih =>
    intro e h
    unfold mapME at h
    cases hg : g v with
    | error e' =>
      rw [hg] at h
      cases h
      exact ⟨v, List.mem_cons_self _ _, hg⟩
    | ok w =>
      rw [hg] at h
      cases hm : mapME g vs with
      | error e' =>
        rw [hm] at h
        cases h
        obtain ⟨x, hx, hgx⟩ := ih e hm
        exact ⟨x, List.mem_cons_of_mem _ hx, hgx⟩
      | ok ws => rw [hm] at h; exact absurd h (by simp)

theorem mapME_has_error (g : Val → Except Err Val) :
    ∀ (vs : List Val) (v : Val) (e : Err), v ∈ vs → g v = .error e →
      ∃ e', mapME g vs = .error e' := by
  intro vs
  induction vs with
  | nil => intro v e hv; cases hv
  | cons w vs ih =>
    intro v e hv hg
    unfold mapME
    cases hgw : g w with
    | error e' => exact ⟨e', rfl⟩
    | ok w' =>
      cases hv with
      | head => rw [hgw] at hg; exact Except.noConfusion hg
      | tail _ hmem =>
        obtain ⟨e', he'⟩ := ih v e hmem hg
        rw [he']
        exact ⟨e', rfl⟩

theorem mapME_map (g : Val → Except Err Val) (h : Val → Val) :
    ∀ l : List Val, mapME g (l.map h) = mapME (fun x => g (h x)) l := by
  intro l
  induction l with
  | nil => rfl
  | cons x l ih =>
    show mapME g (h x :: l.map h) = _
    unfold mapME
    rw [ih]

theorem mapME_length (g : Val → Except Err Val) {vs ws : List Val}
    (h : mapME g vs = .ok ws) : ws.length = vs.length :=
  (List.Forall₂.length_eq (mapME_ok_forall g vs ws h)).symm

/-! ## `to_datetime` and `castVal` lemmas -/

theorem to_datetime_ok {v w : Val} (h : to_datetime v = .ok w) : ∃ d, w = .vdate d := by
  cases v with
  | vdate d =>
    injection h with h2
    exact ⟨d, h2.symm⟩
  | vint n => exact Except.noConfusion h
  | vstr s =>
    simp only [to_datetime] at h
    cases hp : parseDate s with
    | none => rw [hp] at h; exact Except.noConfusion h
    | some d =>
      rw [hp] at h
      injection h with h2
      exact ⟨d, h2.symm⟩

theorem to_datetime_error {v : Val} {e : Err} (h : to_datetime v = .error e) :
    e = .parseError := by
  cases v with
  | vdate d => exact Except.noConfusion h
  | vint n =>
    injection h with h2
    exact h2.symm
  | vstr s =>
    simp only [to_datetime] at h
    cases hp : parseDate s with
    | none =>
      rw [hp] at h
      injection h with h2
      exact h2.symm
    | some d => rw [hp] at h; exact Except.noConfusion h

theorem castVal_idem (v u : Val) (ty : String) (h : castVal v ty = .ok u) :
    castVal u ty = .ok u := by
  unfold castVal at h ⊢
  split_ifs at h ⊢ with h1 h2 h3 h4
  · injection h with h2
    subst h2
    rfl
  · cases v with
    | vint n =>
      injection h with h5
      subst h5
      rfl
    | vstr s =>
      simp only [castInt] at h
      cases hp : parseNatStr s with
      | none => rw [hp] at h; exact Except.noConfusion h
      | some k =>
        rw [hp] at h
        injection h with h5
        subst h5
        rfl
    | vdate d => exact Except.noConfusion h
  · cases v with
    | vint n => exact Except.noConfusion h
    | vstr s =>
      simp only [castTs] at h
      cases hp : parseDate s with
      | none => rw [hp] at h; exact Except.noConfusion h
      | some d =>
        rw [hp] at h
        injection h with h5
        subst h5
        rfl
    | vdate d =>
      injection h with h5
      subst h5
      rfl
  · cases v with
    | vint n =>
      injection h with h5
      subst h5
      by_cases hn : n = 0 <;> simp [castBool, hn]
    | vstr s =>
      simp only [castBool] at h
      by_cases hb : s = "true" ∨ s = "false"
      · rw [if_pos hb] at h
        injection h with h5
        subst h5
        simp [castBool, hb]
      · rw [if_neg hb] at h
        exact Except.noConfusion h
    | vdate d => exact Except.noConfusion h
  · injection h with h5
    subst h5
    rfl

theorem castVal_vdate_cases (d : Nat) (ty : String) (u : Val)
    (h : castVal (.vdate d) ty = .ok u) : u = .vdate d ∨ u = .vstr (tsRender d) := by
  unfold castVal at h
  split_ifs at h
  · right
    injection h with h2
    exact h2.symm
  · exact Except.noConfusion h
  · left
    injection h with h2
    exact h2.symm
  · exact Except.noConfusion h
  · left
    injection h with h5
    exact h5.symm

theorem to_datetime_of_cast_vdate {d : Nat} {ty : String} {u : Val}
    (h : castVal (.vdate d) ty = .ok u) : to_datetime u = .ok (.vdate d) := by
  rcases castVal_vdate_cases d ty u h with rfl | rfl
  · rfl
  · show to_datetime (.vstr (tsRender d)) = _
    simp only [to_datetime]
    rw [parseDate_tsRender]

/-- A rendered timestamp string is not a decimal numeral (it starts with
`'T'`). -/
theorem parseNatStr_tsRender (d : Nat) : parseNatStr (tsRender d) = none := by
  unfold parseNatStr tsRender
  rw [data_mk]
  unfold parseNatList
  rw [if_neg]
  rintro ⟨-, h2⟩
  rw [List.all_cons, Bool.and_eq_true] at h2
  exact absurd h2.1 (by decide)

/-- A rendered timestamp string differs from any string shorter than 19
characters. -/
theorem tsRender_ne (d : Nat) (s : String) (hs : s.length < 19) : tsRender d ≠ s := by
  intro h
  have h1 := tsRender_len d
  rw [h] at h1
  omega

/-- On a padding-matched, census-free column, a typed timestamp passes the
whole padding chain as its (length ≥ 19, hence never padded) string
rendering. -/
theorem padApply_vdate_ts (col : String) (d : Nat)
    (hm : padMatched col = true)
    (hc : strContains col "prim_census_tract_cd" = false) :
    padApply col (Val.vdate d) = .vstr (tsRender d) := by
  have h1 := padApply_TInv col d (Val.vdate d) hc (Or.inl rfl)
  obtain ⟨s, hs⟩ := padApply_matched_vstr col (Val.vdate d) hm
  cases h1 with
  | inl h2 =>
    rw [hs] at h2
    exact Val.noConfusion h2
  | inr h2 => exact h2

/-- Casting a rendered timestamp string, under any target type, yields a
value that `to_datetime` re-parses to the original timestamp. -/
theorem to_datetime_of_cast_tsRender (d : Nat) (ty : String) (u : Val)
    (h : castVal (.vstr (tsRender d)) ty = .ok u) : to_datetime u = .ok (.vdate d) := by
  unfold castVal at h
  split_ifs at h
  · injection h with h2
    subst h2
    show to_datetime (.vstr (tsRender d)) = _
    simp only [to_datetime]
    rw [parseDate_tsRender]
  · simp only [castInt] at h
    rw [parseNatStr_tsRender] at h
    exact Except.noConfusion h
  · simp only [castTs] at h
    rw [parseDate_tsRender] at h
    injection h with h2
    subst h2
    rfl
  · simp only [castBool] at h
    rw [if_neg] at h
    · exact Except.noConfusion h
    · rintro (h2 | h2)
      · exact tsRender_ne d "true" (by decide) h2
      · exact tsRender_ne d "false" (by decide) h2
  · injection h with h2
    subst h2
    simp only [to_datetime]
    rw [parseDate_tsRender]

/-! ## Per-element idempotence of padding followed by casting -/

theorem bool_eq_false_of_ne_true {b : Bool} (h : ¬ b = true) : b = false := by
  cases b
  · rfl
  · exact absurd rfl h

theorem elemCast_idem (col ty : String) (v u : Val)
    (hc : strContains col "prim_census_tract_cd" = false)
    (h : castVal (padApply col v) ty = .ok u) :
    castVal (padApply col u) ty = .ok u := by
  by_cases hm : padMatched col = true
  · obtain ⟨s, hs⟩ := padApply_matched_vstr col v hm
    have hidem : padApply col (padApply col v) = padApply col v := padApply_idem col v hc
    rw [hs] at h
    unfold castVal at h ⊢
    split_ifs at h ⊢ with h1 h2 h3 h4
    · -- string target
      injection h with h5
      subst h5
      rw [show Val.vstr (toDec (Val.vstr s)) = Val.vstr s from rfl, ← hs, hidem, hs]
      rfl
    · -- integer target
      simp only [castInt] at h
      cases hp : parseNatStr s with
      | none => rw [hp] at h; exact Except.noConfusion h
      | some k =>
        rw [hp] at h
        injection h with h5
        subst h5
        have hd := padApply_DInv col k (Val.vint (k : Int)) hc (DInv_vint k)
        obtain ⟨t, ht⟩ := padApply_matched_vstr col (Val.vint (k : Int)) hm
        rw [ht] at hd ⊢
        unfold DInv at hd
        rw [toDec_vstr] at hd
        simp only [castInt]
        rw [hd]
    · -- temporal target
      simp only [castTs] at h
      cases hp : parseDate s with
      | none => rw [hp] at h; exact Except.noConfusion h
      | some d =>
        rw [hp] at h
        injection h with h5
        subst h5
        have htv := padApply_TInv col d (Val.vdate d) hc (Or.inl rfl)
        rcases htv with h6 | h6 <;> rw [h6]
        · rfl
        · simp only [castTs]
          rw [parseDate_tsRender]
    · -- boolean target
      simp only [castBool] at h
      by_cases hb : s = "true" ∨ s = "false"
      · rw [if_pos hb] at h
        injection h with h5
        subst h5
        rw [← hs, hidem, hs]
        simp [castBool, hb]
      · rw [if_neg hb] at h
        exact Except.noConfusion h
    · -- pass-through target
      injection h with h5
      subst h5
      rw [← hs, hidem]
  · have hm' : padMatched col = false := bool_eq_false_of_ne_true hm
    rw [padApply_id col v hm'] at h
    rw [padApply_id col u hm']
    exact castVal_idem v u ty h

/-! ## Pipeline idempotence and postconditions -/

theorem columnPipeline_idem (col ty : String) (vs us : List Val)
    (hc : strContains col "prim_census_tract_cd" = false)
    (h : columnPipeline col ty vs = .ok us) :
    columnPipeline col ty us = .ok us := by
  unfold columnPipeline at h ⊢
  by_cases ht : isTemporal col = true
  · rw [if_pos ht] at h ⊢
    cases hm : mapME to_datetime vs with
    | error e => rw [hm] at h; exact Except.noConfusion h
    | ok vs1 =>
      rw [hm] at h
      have h' : castSeriesType (vs1.map (padApply col)) ty = .ok us := h
      have h'' := h'
      unfold castSeriesType at h''
      rw [mapME_map] at h''
      have hf2 := mapME_ok_forall _ _ _ h''
      have hf1 := mapME_ok_forall _ _ _ hm
      have hvd : ∀ w ∈ vs1, ∃ d, w = Val.vdate d := by
        intro w hw
        obtain ⟨v0, _, hv0⟩ := forall₂_mem_right hf1 w hw
        exact to_datetime_ok hv0
      have hflip : ∀ (l1 l2 : List Val),
          List.Forall₂ (fun w u => castVal (padApply col w) ty = .ok u) l1 l2 →
          (∀ w ∈ l1, ∃ d, w = Val.vdate d) →
          List.Forall₂ (fun u w => to_datetime u = .ok w) l2 l1 := by
        intro l1 l2 hf
        induction hf with
        | nil => intro _; exact .nil
        | @cons w u l1' l2' hcast _ ih =>
          intro hw
          obtain ⟨d, rfl⟩ := hw w (List.mem_cons_self _ _)
          refine .cons ?_ (ih (fun x hx => hw x (List.mem_cons_of_mem _ hx)))
          by_cases hpm : padMatched col = true
          · rw [padApply_vdate_ts col d hpm hc] at hcast
            exact to_datetime_of_cast_tsRender d ty u hcast
          · rw [padApply_id col _ (bool_eq_false_of_ne_true hpm)] at hcast
            exact to_datetime_of_cast_vdate hcast
      have hmu : mapME to_datetime us = .ok vs1 :=
        mapME_ok_of_forall _ (hflip vs1 us hf2 hvd)
      rw [hmu]
      show castSeriesType (vs1.map (padApply col)) ty = .ok us
      exact h'
  · rw [if_neg ht] at h ⊢
    have h' : castSeriesType (vs.map (padApply col)) ty = .ok us := h
    unfold castSeriesType at h'
    rw [mapME_map] at h'
    have hf := mapME_ok_forall _ _ _ h'
    show castSeriesType (us.map (padApply col)) ty = .ok us
    unfold castSeriesType
    rw [mapME_map]
    apply mapME_ok_of_forall
    apply forall₂_refl_of
    intro u hu
    obtain ⟨v, _, hv⟩ := forall₂_mem_right hf u hu
    exact elemCast_idem col ty v u hc hv

/-- On success every output value of a column's pipeline is a fixed point
of the type cast: the always-run final cast has been applied. -/
theorem columnPipeline_fixed (col ty : String) (vs us : List Val)
    (h : columnPipeline col ty vs = .ok us) :
    ∀ u ∈ us, castVal u ty = .ok u := by
  unfold columnPipeline at h
  cases htv : (if isTemporal col then mapME to_datetime vs else .ok vs) with
  | error e => rw [htv] at h; exact Except.noConfusion h
  | ok vs1 =>
    rw [htv] at h
    have h' : castSeriesType (vs1.map (padApply col)) ty = .ok us := h
    unfold castSeriesType at h'
    have hf := mapME_ok_forall _ _ _ h'
    intro u hu
    obtain ⟨w, _, hw⟩ := forall₂_mem_right hf u hu
    exact castVal_idem _ _ _ hw

/-- On success a column's pipeline preserves the number of rows. -/
theorem columnPipeline_length (col ty : String) (vs us : List Val)
    (h : columnPipeline col ty vs = .ok us) : us.length = vs.length := by
  unfold columnPipeline at h
  cases htv : (if isTemporal col then mapME to_datetime vs else .ok vs) with
  | error e => rw [htv] at h; exact Except.noConfusion h
  | ok vs1 =>
    rw [htv] at h
    have h' : castSeriesType (vs1.map (padApply col)) ty = .ok us := h
    unfold castSeriesType at h'
    have h1 := mapME_length _ h'
    have h2 : vs1.length = vs.length := by
      by_cases ht : isTemporal col = true
      · rw [if_pos ht] at htv
        exact mapME_length _ htv
      · rw [if_neg ht] at htv
        injection htv with h3
        rw [h3]
    rw [h1, List.length_map, h2]

/-! ## Frame-operation lemmas -/

theorem hasCol_cons (p : String × List Val) (f : Frame) (c : String) :
    hasCol (p :: f) c = (decide (p.1 = c) || hasCol f c) := rfl

theorem getCol_cons (p : String × List Val) (f : Frame) (c : String) :
    getCol (p :: f) c = if p.1 = c then some p.2 else getCol f c := by
  unfold getCol
  rw [List.find?]
  by_cases hp : p.1 = c
  · simp [hp]
  · simp [hp]

theorem setCol_cons (p : String × List Val) (f : Frame) (c : String) (vs : List Val) :
    setCol (p :: f) c vs = (if p.1 = c then (c, vs) else p) :: setCol f c vs := rfl

theorem hasCol_iff (f : Frame) (c : String) : hasCol f c = true ↔ c ∈ f.map Prod.fst := by
  induction f with
  | nil => simp [hasCol]
  | cons p f ih =>
    rw [hasCol_cons, List.map_cons, Bool.or_eq_true, decide_eq_true_eq, List.mem_cons, ih]
    constructor
    · rintro (h | h)
      · exact Or.inl h.symm
      · exact Or.inr h
    · rintro (h | h)
      · exact Or.inl h.symm
      · exact Or.inr h

theorem hasCol_false_of_not_mem {f : Frame} {c : String} (h : c ∉ f.map Prod.fst) :
    hasCol f c = false := by
  cases hh : hasCol f c
  · rfl
  · exact absurd ((hasCol_iff f c).mp hh) h

theorem hasCol_congr {f g : Frame} (h : f.map Prod.fst = g.map Prod.fst) (c : String) :
    hasCol f c = hasCol g c := by
  by_cases hc : c ∈ g.map Prod.fst
  · rw [(hasCol_iff g c).mpr hc, (hasCol_iff f c).mpr (by rw [h]; exact hc)]
  · rw [hasCol_false_of_not_mem hc, hasCol_false_of_not_mem (by rw [h]; exact hc)]

theorem getCol_isSome (f : Frame) (c : String) (h : hasCol f c = true) :
    ∃ vs, getCol f c = some vs := by
  induction f with
  | nil => exact absurd h (by simp [hasCol])
  | cons p f ih =>
    rw [getCol_cons]
    by_cases hp : p.1 = c
    · exact ⟨p.2, by rw [if_pos hp]⟩
    · rw [if_neg hp]
      apply ih
      rw [hasCol_cons] at h
      simpa [hp] using h

theorem getCol_setCol_self (f : Frame) (c : String) (vs : List Val)
    (h : hasCol f c = true) : getCol (setCol f c vs) c = some vs := by
  induction f with
  | nil => exact absurd h (by simp [hasCol])
  | cons p f ih =>
    by_cases hp : p.1 = c
    · rw [setCol_cons, if_pos hp, getCol_cons]
      simp
    · rw [setCol_cons, if_neg hp, getCol_cons, if_neg hp]
      apply ih
      rw [hasCol_cons] at h
      simpa [hp] using h

theorem getCol_setCol_ne (f : Frame) (c c' : String) (vs : List Val) (h : c' ≠ c) :
    getCol (setCol f c vs) c' = getCol f c' := by
  induction f with
  | nil => rfl
  | cons p f ih =>
    by_cases hp : p.1 = c
    · rw [setCol_cons, if_pos hp, getCol_cons, getCol_cons,
        if_neg (fun he => h he.symm), if_neg (by rw [hp]; exact fun he => h he.symm)]
      exact ih
    · rw [setCol_cons, if_neg hp, getCol_cons, getCol_cons]
      by_cases hp' : p.1 = c'
      · rw [if_pos hp', if_pos hp']
      · rw [if_neg hp', if_neg hp']
        exact ih

theorem setCol_setCol (f : Frame) (c : String) (a b : List Val) :
    setCol (setCol f c a) c b = setCol f c b := by
  induction f with
  | nil => rfl
  | cons p f ih =>
    by_cases hp : p.1 = c <;> simp [setCol_cons, hp, ih]

theorem map_fst_setCol (f : Frame) (c : String) (vs : List Val) :
    (setCol f c vs).map Prod.fst = f.map Prod.fst := by
  induction f with
  | nil => rfl
  | cons p f ih =>
    rw [setCol_cons, List.map_cons, List.map_cons, ih]
    by_cases hp : p.1 = c
    · rw [if_pos hp]
      simp [hp]
    · rw [if_neg hp]

theorem setCol_of_not_mem (f : Frame) (c : String) (vs : List Val)
    (h : hasCol f c = false) : setCol f c vs = f := by
  induction f with
  | nil => rfl
  | cons p f ih =>
    rw [hasCol_cons] at h
    by_cases hp : p.1 = c
    · exfalso
      simp [hp] at h
    · rw [setCol_cons, if_neg hp, ih (by simpa [hp] using h)]

theorem setCol_self (f : Frame) (c : String) (vs : List Val)
    (h : getCol f c = some vs) (hnd : (f.map Prod.fst).Nodup) : setCol f c vs = f := by
  induction f with
  | nil => rfl
  | cons p f ih =>
    rw [getCol_cons] at h
    rw [List.map_cons, List.nodup_cons] at hnd
    by_cases hp : p.1 = c
    · rw [if_pos hp] at h
      injection h with h2
      have hno : hasCol f c = false :=
        hasCol_false_of_not_mem (by rw [← hp]; exact hnd.1)
      rw [setCol_cons, if_pos hp, setCol_of_not_mem f c vs hno]
      have : (c, vs) = p := by
        cases p with
        | mk p1 p2 =>
          simp only at hp h2
          rw [hp, h2]
      rw [this]
    · rw [if_neg hp] at h
      rw [setCol_cons, if_neg hp, ih h hnd.2]

/-! ## `processColumn` structure lemmas -/

theorem setCol_padFrame (f : Frame) (col : String) (vs1 vs3 : List Val) :
    setCol (padFrame f col vs1) col vs3 = setCol f col vs3 := by
  unfold padFrame tempFrame
  split_ifs <;> simp [setCol_setCol]

theorem map_fst_padFrame (f : Frame) (col : String) (vs1 : List Val) :
    (padFrame f col vs1).map Prod.fst = f.map Prod.fst := by
  unfold padFrame tempFrame
  split_ifs <;> simp [map_fst_setCol]

theorem getCol_padFrame_ne (f : Frame) (col c' : String) (vs1 : List Val) (h : c' ≠ col) :
    getCol (padFrame f col vs1) c' = getCol f c' := by
  unfold padFrame tempFrame
  split_ifs <;> simp [getCol_setCol_ne _ _ _ _ h]

theorem processColumn_none (f : Frame) (col ty : String) (h : getCol f col = none) :
    processColumn f col ty = .ok f := by
  unfold processColumn
  rw [h]

theorem processColumn_some (f : Frame) (col ty : String) (vs : List Val)
    (h : getCol f col = some vs) :
    processColumn f col ty = processColumnAux f col ty vs := by
  unfold processColumn
  rw [h]

theorem processColumnAux_error (f : Frame) (col ty : String) (vs : List Val) (e : Err)
    (h : (if isTemporal col then mapME to_datetime vs else .ok vs) = .error e) :
    processColumnAux f col ty vs = .error (e, f) := by
  unfold processColumnAux
  rw [h]

theorem processColumnAux_ok (f : Frame) (col ty : String) (vs vs1 : List Val)
    (h : (if isTemporal col then mapME to_datetime vs else .ok vs) = .ok vs1) :
    processColumnAux f col ty vs = processColumnCast f col ty vs1 := by
  unfold processColumnAux
  rw [h]

theorem processColumnCast_error (f : Frame) (col ty : String) (vs1 : List Val) (e : Err)
    (h : castSeriesType (vs1.map (padApply col)) ty = .error e) :
    processColumnCast f col ty vs1 = .error (e, padFrame f col vs1) := by
  unfold processColumnCast
  rw [h]

theorem processColumnCast_ok (f : Frame) (col ty : String) (vs1 vs3 : List Val)
    (h : castSeriesType (vs1.map (padApply col)) ty = .ok vs3) :
    processColumnCast f col ty vs1 = .ok (setCol f col vs3) := by
  unfold processColumnCast
  rw [h]
  show Except.ok (setCol (padFrame f col vs1) col vs3) = Except.ok (setCol f col vs3)
  rw [setCol_padFrame]

theorem processColumn_ok_elim (f : Frame) (col ty : String) (f1 : Frame)
    (hcol : hasCol f col = true) (h : processColumn f col ty = .ok f1) :
    ∃ vs us, getCol f col = some vs ∧ columnPipeline col ty vs = .ok us ∧
      f1 = setCol f col us := by
  obtain ⟨vs, hvs⟩ := getCol_isSome f col hcol
  rw [processColumn_some f col ty vs hvs] at h
  cases htv : (if isTemporal col then mapME to_datetime vs else .ok vs) with
  | error e =>
    rw [processColumnAux_error f col ty vs e htv] at h
    exact Except.noConfusion h
  | ok vs1 =>
    rw [processColumnAux_ok f col ty vs vs1 htv] at h
    cases hcast : castSeriesType (vs1.map (padApply col)) ty with
    | error e =>
      rw [processColumnCast_error f col ty vs1 e hcast] at h
      exact Except.noConfusion h
    | ok vs3 =>
      rw [processColumnCast_ok f col ty vs1 vs3 hcast] at h
      injection h with h2
      refine ⟨vs, vs3, hvs, ?_, h2.symm⟩
      unfold columnPipeline
      rw [htv]
      exact hcast

theorem processColumn_eq_ok (f : Frame) (col ty : String) (vs us : List Val)
    (hvs : getCol f col = some vs) (hp : columnPipeline col ty vs = .ok us) :
    processColumn f col ty = .ok (setCol f col us) := by
  rw [processColumn_some f col ty vs hvs]
  unfold columnPipeline at hp
  cases htv : (if isTemporal col then mapME to_datetime vs else .ok vs) with
  | error e => rw [htv] at hp; exact Except.noConfusion hp
  | ok vs1 =>
    rw [htv] at hp
    replace hp : castSeriesType (vs1.map (padApply col)) ty = .ok us := hp
    rw [processColumnAux_ok f col ty vs vs1 htv, processColumnCast_ok f col ty vs1 us hp]

theorem processColumn_temporal_error (f : Frame) (col ty : String) (vs : List Val) (e : Err)
    (hvs : getCol f col = some vs) (ht : isTemporal col = true)
    (he : mapME to_datetime vs = .error e) :
    processColumn f col ty = .error (e, f) := by
  rw [processColumn_some f col ty vs hvs]
  exact processColumnAux_error f col ty vs e (by rw [if_pos ht]; exact he)

theorem processColumn_fst_ok (f : Frame) (col ty : String) (f1 : Frame)
    (h : processColumn f col ty = .ok f1) : f1.map Prod.fst = f.map Prod.fst := by
  cases hg : getCol f col with
  | none =>
    rw [processColumn_none f col ty hg] at h
    injection h with h2
    rw [← h2]
  | some vs =>
    rw [processColumn_some f col ty vs hg] at h
    cases htv : (if isTemporal col then mapME to_datetime vs else .ok vs) with
    | error e =>
      rw [processColumnAux_error f col ty vs e htv] at h
      exact Except.noConfusion h
    | ok vs1 =>
      rw [processColumnAux_ok f col ty vs vs1 htv] at h
      cases hcast : castSeriesType (vs1.map (padApply col)) ty with
      | error e =>
        rw [processColumnCast_error f col ty vs1 e hcast] at h
        exact Except.noConfusion h
      | ok vs3 =>
        rw [processColumnCast_ok f col ty vs1 vs3 hcast] at h
        injection h with h2
        rw [← h2, map_fst_setCol]

theorem processColumn_getCol_ne (f : Frame) (col ty c' : String) (hne : c' ≠ col) :
    getCol (visibleFrame (processColumn f col ty)) c' = getCol f c' := by
  cases hg : getCol f col with
  | none =>
    rw [processColumn_none f col ty hg]
    rfl
  | some vs =>
    rw [processColumn_some f col ty vs hg]
    cases htv : (if isTemporal col then mapME to_datetime vs else .ok vs) with
    | error e =>
      rw [processColumnAux_error f col ty vs e htv]
      rfl
    | ok vs1 =>
      rw [processColumnAux_ok f col ty vs vs1 htv]
      cases hcast : castSeriesType (vs1.map (padApply col)) ty with
      | error e =>
        rw [processColumnCast_error f col ty vs1 e hcast]
        exact getCol_padFrame_ne f col c' vs1 hne
      | ok vs3 =>
        rw [processColumnCast_ok f col ty vs1 vs3 hcast]
        exact getCol_setCol_ne f col c' vs3 hne

/-! ## `cast_dataframe` structure lemmas -/

theorem cast_dataframe_skip (n ty : String) (s : Schema) (f : Frame)
    (h : hasCol f n = false) :
    cast_dataframe ((n, ty) :: s) f = cast_dataframe s f := by
  conv_lhs => unfold cast_dataframe
  simp [h]

theorem cast_dataframe_ok_fst :
    ∀ (s : Schema) (f g : Frame), cast_dataframe s f = .ok g →
      g.map Prod.fst = f.map Prod.fst := by
  intro s
  induction s with
  | nil =>
    intro f g h
    injection h with h2
    rw [← h2]
  | cons e s ih =>
    obtain ⟨n, ty⟩ := e
    intro f g h
    unfold cast_dataframe at h
    by_cases hc : hasCol f n = true
    · rw [if_pos hc] at h
      cases hpc : processColumn f n ty with
      | error r => rw [hpc] at h; exact Except.noConfusion h
      | ok f1 =>
        rw [hpc] at h
        rw [ih f1 g h, processColumn_fst_ok f n ty f1 hpc]
    · rw [if_neg hc] at h
      exact ih f g h

theorem cast_dataframe_untouched :
    ∀ (s : Schema) (f : Frame) (c : String), (∀ p ∈ s, p.1 ≠ c) →
      getCol (visibleFrame (cast_dataframe s f)) c = getCol f c := by
  intro s
  induction s with
  | nil => intro f c _; rfl
  | cons e s ih =>
    obtain ⟨n, ty⟩ := e
    intro f c hn
    unfold cast_dataframe
    by_cases hc : hasCol f n = true
    · rw [if_pos hc]
      cases hpc : processColumn f n ty with
      | error r =>
        have h1 := processColumn_getCol_ne f n ty c (hn (n, ty) (List.mem_cons_self _ _)).symm
        rw [hpc] at h1
        exact h1
      | ok f1 =>
        have h1 := processColumn_getCol_ne f n ty c (hn (n, ty) (List.mem_cons_self _ _)).symm
        rw [hpc] at h1
        rw [← h1]
        exact ih f1 c (fun p hp => hn p (List.mem_cons_of_mem _ hp))
    · rw [if_neg hc]
      exact ih f c (fun p hp => hn p (List.mem_cons_of_mem _ hp))

theorem cast_dataframe_notin_get (s : Schema) (f g : Frame) (c : String)
    (h : cast_dataframe s f = .ok g) (hn : ∀ p ∈ s, p.1 ≠ c) :
    getCol g c = getCol f c := by
  have h1 := cast_dataframe_untouched s f c hn
  rw [h] at h1
  exact h1

/-- If the schema prefix succeeds and the processing of the next column
raises, the whole call raises that error and the caller sees exactly the
frame mutated through the prefix and the failing column's completed
steps. -/
theorem cast_dataframe_error_after_ok :
    ∀ (s₁ : Schema) (s₂ : Schema) (c ty : String) (f g g₂ : Frame) (e : Err),
      cast_dataframe s₁ f = .ok g → hasCol g c = true →
      processColumn g c ty = .error (e, g₂) →
      cast_dataframe (s₁ ++ (c, ty) :: s₂) f = .error (e, g₂) := by
  intro s₁
  induction s₁ with
  | nil =>
    intro s₂ c ty f g g₂ e h1 h2 h3
    injection h1 with h4
    subst h4
    show cast_dataframe ((c, ty) :: s₂) f = .error (e, g₂)
    unfold cast_dataframe
    rw [if_pos h2, h3]
  | cons p s₁ ih =>
    obtain ⟨n, nty⟩ := p
    intro s₂ c ty f g g₂ e h1 h2 h3
    unfold cast_dataframe at h1
    show cast_dataframe ((n, nty) :: (s₁ ++ (c, ty) :: s₂)) f = .error (e, g₂)
    unfold cast_dataframe
    by_cases hc : hasCol f n = true
    · rw [if_pos hc] at h1 ⊢
      cases hpc : processColumn f n nty with
      | error r => rw [hpc] at h1; exact Except.noConfusion h1
      | ok f1 =>
        rw [hpc] at h1
        exact ih s₂ c ty f1 g g₂ e h1 h2 h3
    · rw [if_neg hc] at h1 ⊢
      exact ih s₂ c ty f g g₂ e h1 h2 h3

/-! ## Idempotence of `cast_dataframe` -/

theorem cast_dataframe_idem :
    ∀ (s : Schema) (f g : Frame),
      (f.map Prod.fst).Nodup → (s.map Prod.fst).Nodup →
      (∀ p ∈ s, strContains p.1 "prim_census_tract_cd" = false) →
      cast_dataframe s f = .ok g → cast_dataframe s g = .ok g := by
  intro s
  induction s with
  | nil => intro f g _ _ _ _; rfl
  | cons e s ih =>
    obtain ⟨n, ty⟩ := e
    intro f g hf hs hcen h
    rw [List.map_cons, List.nodup_cons] at hs
    unfold cast_dataframe at h
    by_cases hc : hasCol f n = true
    · rw [if_pos hc] at h
      cases hpc : processColumn f n ty with
      | error r => rw [hpc] at h; exact Except.noConfusion h
      | ok f1 =>
        rw [hpc] at h
        obtain ⟨vs, us, hvs, hpipe, hf1⟩ := processColumn_ok_elim f n ty f1 hc hpc
        have hfst1 : f1.map Prod.fst = f.map Prod.fst := processColumn_fst_ok f n ty f1 hpc
        have hgf : g.map Prod.fst = f.map Prod.fst := by
          rw [cast_dataframe_ok_fst s f1 g h, hfst1]
        have hcg : hasCol g n = true := by
          rw [hasCol_congr hgf n]
          exact hc
        have hn : ∀ p ∈ s, p.1 ≠ n := by
          intro p hp he
          refine hs.1 ?_
          rw [← he]
          exact List.mem_map.mpr ⟨p, hp, rfl⟩
        have hgus : getCol g n = some us := by
          rw [cast_dataframe_notin_get s f1 g n h hn, hf1]
          exact getCol_setCol_self f n us hc
        have hpipe2 : columnPipeline n ty us = .ok us :=
          columnPipeline_idem n ty vs us
            (hcen (n, ty) (List.mem_cons_self _ _)) hpipe
        have hpg : processColumn g n ty = .ok (setCol g n us) :=
          processColumn_eq_ok g n ty us us hgus hpipe2
        have hsetg : setCol g n us = g := by
          apply setCol_self g n us hgus
          rw [hgf]
          exact hf
        show cast_dataframe ((n, ty) :: s) g = .ok g
        unfold cast_dataframe
        rw [if_pos hcg, hpg, hsetg]
        exact ih f1 g (by rw [hfst1]; exact hf) hs.2
          (fun p hp => hcen p (List.mem_cons_of_mem _ hp)) h
    · rw [if_neg hc] at h
      have hgf : g.map Prod.fst = f.map Prod.fst := cast_dataframe_ok_fst s f g h
      have hcg : hasCol g n = false := by
        rw [hasCol_congr hgf n]
        exact bool_eq_false_of_ne_true hc
      rw [cast_dataframe_skip n ty s g hcg]
      exact ih f g hf hs.2
        (fun p hp => hcen p (List.mem_cons_of_mem _ hp)) h

/-! ## Declared-type conformance after success -/

theorem cast_dataframe_types :
    ∀ (s : Schema) (f g : Frame),
      (s.map Prod.fst).Nodup →
      cast_dataframe s f = .ok g →
      ∀ c ty, (c, ty) ∈ s → hasCol f c = true →
        ∃ vs, getCol g c = some vs ∧ ∀ v ∈ vs, castVal v ty = .ok v := by
  intro s
  induction s with
  | nil =>
    intro f g _ _ c ty hmem
    cases hmem
  | cons e s ih =>
    obtain ⟨n, nty⟩ := e
    intro f g hs h c ty hmem hcf
    rw [List.map_cons, List.nodup_cons] at hs
    unfold cast_dataframe at h
    by_cases hc : hasCol f n = true
    · rw [if_pos hc] at h
      cases hpc : processColumn f n nty with
      | error r => rw [hpc] at h; exact Except.noConfusion h
      | ok f1 =>
        rw [hpc] at h
        obtain ⟨vs, us, hvs, hpipe, hf1⟩ := processColumn_ok_elim f n nty f1 hc hpc
        have hfst1 : f1.map Prod.fst = f.map Prod.fst := processColumn_fst_ok f n nty f1 hpc
        cases hmem with
        | head =>
          have hn : ∀ p ∈ s, p.1 ≠ n := by
            intro p hp he
            refine hs.1 ?_
            rw [← he]
            exact List.mem_map.mpr ⟨p, hp, rfl⟩
          refine ⟨us, ?_, columnPipeline_fixed n nty vs us hpipe⟩
          rw [cast_dataframe_notin_get s f1 g n h hn, hf1]
          exact getCol_setCol_self f n us hc
        | tail _ hmem' =>
          refine ih f1 g hs.2 h c ty hmem' ?_
          rw [hasCol_congr hfst1 c]
          exact hcf
    · rw [if_neg hc] at h
      cases hmem with
      | head => exact absurd hcf hc
      | tail _ hmem' => exact ih f g hs.2 h c ty hmem' hcf

/-! ## Shape preservation -/

theorem forall₂_comp {α : Type} {R : α → α → Prop}
    (hR : ∀ a b c, R a b → R b c → R a c) :
    ∀ {l₁ l₂ l₃ : List α}, List.Forall₂ R l₁ l₂ → List.Forall₂ R l₂ l₃ →
      List.Forall₂ R l₁ l₃ := by
  intro l₁ l₂ l₃ h1
  induction h1 generalizing l₃ with
  | nil =>
    intro h2
    cases h2
    exact .nil
  | cons hab h1' ih =>
    intro h2
    cases h2 with
    | cons hbc h2' => exact .cons (hR _ _ _ hab hbc) (ih h2')

/-- The column-shape relation: same name, same row count. -/
def SameShape (p q : String × List Val) : Prop := p.1 = q.1 ∧ p.2.length = q.2.length

theorem setCol_shape :
    ∀ (f : Frame) (c : String) (vs us : List Val),
      (f.map Prod.fst).Nodup → getCol f c = some vs → us.length = vs.length →
      List.Forall₂ SameShape (setCol f c us) f := by
  intro f
  induction f with
  | nil => intro c vs us _ h; exact absurd h (by simp [getCol])
  | cons p f ih =>
    intro c vs us hnd h hlen
    rw [List.map_cons, List.nodup_cons] at hnd
    rw [getCol_cons] at h
    by_cases hp : p.1 = c
    · rw [if_pos hp] at h
      injection h with h2
      rw [setCol_cons, if_pos hp]
      refine .cons ⟨hp.symm, by rw [hlen, h2]⟩ ?_
      rw [setCol_of_not_mem f c us
        (hasCol_false_of_not_mem (by rw [← hp]; exact hnd.1))]
      exact forall₂_refl_of (fun q _ => ⟨rfl, rfl⟩)
    · rw [if_neg hp] at h
      rw [setCol_cons, if_neg hp]
      exact .cons ⟨rfl, rfl⟩ (ih c vs us hnd.2 h hlen)

theorem getCol_eq_none (f : Frame) (c : String) (h : hasCol f c = false) :
    getCol f c = none := by
  induction f with
  | nil => rfl
  | cons p f ih =>
    rw [hasCol_cons] at h
    rw [getCol_cons]
    by_cases hp : p.1 = c
    · exfalso
      simp [hp] at h
    · rw [if_neg hp]
      exact ih (by simpa [hp] using h)

theorem processColumn_shape (f : Frame) (col ty : String) (f1 : Frame)
    (hnd : (f.map Prod.fst).Nodup) (h : processColumn f col ty = .ok f1) :
    List.Forall₂ SameShape f1 f := by
  by_cases hc : hasCol f col = true
  · obtain ⟨vs, us, hvs, hpipe, hf1⟩ := processColumn_ok_elim f col ty f1 hc h
    rw [hf1]
    exact setCol_shape f col vs us hnd hvs (columnPipeline_length col ty vs us hpipe)
  · have hnone : getCol f col = none := getCol_eq_none f col (bool_eq_false_of_ne_true hc)
    rw [processColumn_none f col ty hnone] at h
    injection h with h2
    rw [← h2]
    exact forall₂_refl_of (fun q _ => ⟨rfl, rfl⟩)

theorem cast_dataframe_shape :
    ∀ (s : Schema) (f g : Frame), (f.map Prod.fst).Nodup →
      cast_dataframe s f = .ok g → List.Forall₂ SameShape g f := by
  intro s
  induction s with
  | nil =>
    intro f g _ h
    injection h with h2
    rw [← h2]
    exact forall₂_refl_of (fun q _ => ⟨rfl, rfl⟩)
  | cons e s ih =>
    obtain ⟨n, ty⟩ := e
    intro f g hf h
    unfold cast_dataframe at h
    by_cases hc : hasCol f n = true
    · rw [if_pos hc] at h
      cases hpc : processColumn f n ty with
      | error r => rw [hpc] at h; exact Except.noConfusion h
      | ok f1 =>
        rw [hpc] at h
        have hstep := processColumn_shape f n ty f1 hf hpc
        have hrest := ih f1 g (by rw [processColumn_fst_ok f n ty f1 hpc]; exact hf) h
        exact forall₂_comp
          (fun a b c hab hbc => ⟨hab.1.trans hbc.1, hab.2.trans hbc.2⟩) hrest hstep
    · rw [if_neg hc] at h
      exact ih f g hf h

/-! ## Positional row correspondence -/

theorem forall₂_compose {α β γ : Type} {P : α → β → Prop} {Q : β → γ → Prop} :
    ∀ {l₁ : List α} {l₂ : List β} {l₃ : List γ},
      List.Forall₂ P l₁ l₂ → List.Forall₂ Q l₂ l₃ →
      List.Forall₂ (fun a c => ∃ b, P a b ∧ Q b c) l₁ l₃ := by
  intro l₁ l₂ l₃ h1
  induction h1 generalizing l₃ with
  | nil =>
    intro h2
    cases h2
    exact .nil
  | cons hab h1' ih =>
    intro h2
    cases h2 with
    | cons hbc h2' => exact .cons ⟨_, hab, hbc⟩ (ih h2')

/-- On success a column's pipeline relates input and output rows
position by position: row `i` of the output is obtained from row `i` of
the input by the optional temporal parse followed by padding and the type
cast — rows are neither reordered nor dropped nor invented. -/
theorem columnPipeline_rows (col ty : String) (vs us : List Val)
    (h : columnPipeline col ty vs = .ok us) :
    List.Forall₂ (fun v u => ∃ w,
      (if isTemporal col then to_datetime v else .ok v) = .ok w ∧
      castVal (padApply col w) ty = .ok u) vs us := by
  unfold columnPipeline at h
  by_cases ht : isTemporal col = true
  · rw [if_pos ht] at h
    cases hm : mapME to_datetime vs with
    | error e => rw [hm] at h; exact Except.noConfusion h
    | ok vs1 =>
      rw [hm] at h
      have h' : castSeriesType (vs1.map (padApply col)) ty = .ok us := h
      unfold castSeriesType at h'
      rw [mapME_map] at h'
      have hf1 := mapME_ok_forall _ _ _ hm
      have hf2 := mapME_ok_forall _ _ _ h'
      refine List.Forall₂.imp ?_ (forall₂_compose hf1 hf2)
      intro v u h0
      obtain ⟨w, hw1, hw2⟩ := h0
      refine ⟨w, ?_, hw2⟩
      rw [if_pos ht]
      exact hw1
  · rw [if_neg ht] at h
    have h' : castSeriesType (vs.map (padApply col)) ty = .ok us := h
    unfold castSeriesType at h'
    rw [mapME_map] at h'
    refine List.Forall₂.imp ?_ (mapME_ok_forall _ _ _ h')
    intro v u h0
    refine ⟨v, ?_, h0⟩
    rw [if_neg ht]

/-- On success, every schema column present in the frame holds the exact
pipeline output of its original values. -/
theorem cast_dataframe_rows :
    ∀ (s : Schema) (f g : Frame),
      (s.map Prod.fst).Nodup →
      cast_dataframe s f = .ok g →
      ∀ c ty, (c, ty) ∈ s → hasCol f c = true →
        ∃ vs us, getCol f c = some vs ∧ getCol g c = some us ∧
          columnPipeline c ty vs = .ok us := by
  intro s
  induction s with
  | nil =>
    intro f g _ _ c ty hmem
    cases hmem
  | cons e s ih =>
    obtain ⟨n, nty⟩ := e
    intro f g hs h c ty hmem hcf
    rw [List.map_cons, List.nodup_cons] at hs
    unfold cast_dataframe at h
    by_cases hc : hasCol f n = true
    · rw [if_pos hc] at h
      cases hpc : processColumn f n nty with
      | error r => rw [hpc] at h; exact Except.noConfusion h
      | ok f1 =>
        rw [hpc] at h
        obtain ⟨vs, us, hvs, hpipe, hf1⟩ := processColumn_ok_elim f n nty f1 hc hpc
        have hfst1 : f1.map Prod.fst = f.map Prod.fst := processColumn_fst_ok f n nty f1 hpc
        cases hmem with
        | head =>
          have hn : ∀ p ∈ s, p.1 ≠ n := by
            intro p hp he
            refine hs.1 ?_
            rw [← he]
            exact List.mem_map.mpr ⟨p, hp, rfl⟩
          refine ⟨vs, us, hvs, ?_, hpipe⟩
          rw [cast_dataframe_notin_get s f1 g n h hn, hf1]
          exact getCol_setCol_self f n us hc
        | tail _ hmem' =>
          have hcn : c ≠ n := by
            intro he
            refine hs.1 ?_
            rw [← he]
            exact List.mem_map.mpr ⟨(c, ty), hmem', rfl⟩
          obtain ⟨vs', us', hvs', hus', hpipe'⟩ := ih f1 g hs.2 h c ty hmem'
            (by rw [hasCol_congr hfst1 c]; exact hcf)
          refine ⟨vs', us', ?_, hus', hpipe'⟩
          rw [← hvs', hf1]
          exact (getCol_setCol_ne f n c us hcn).symm
    · rw [if_neg hc] at h
      cases hmem with
      | head => exact absurd hcf hc
      | tail _ hmem' => exact ih f g hs.2 h c ty hmem' hcf

/-! ## Single-rule reductions of the padding chain -/

theorem padApply_zip_only (col : String) (v : Val)
    (h1 : (strContains col "zip_cd" || strContains col "cbsa_cd") = true)
    (h2 : strContains col "cnty_cd" = false)
    (h3 : strContains col "sale_regn_cd" = false)
    (h4 : strContains col "prim_msa_cd" = false)
    (h5 : strContains col "prim_census_tract_cd" = false)
    (h6 : (strContains col "customer_id" || strContains col "_cust_id") = false)
    (h7 : (strContains col "lnprps_cd" || strContains col "uw_desgntn_cd") = false) :
    padApply col v = zfill v 5 := by
  simp only [padApply, h1, h2, h3, h4, h5, h6, h7, Bool.false_eq_true, if_false, if_true]

theorem padApply_cnty_only (col : String) (v : Val)
    (h1 : (strContains col "zip_cd" || strContains col "cbsa_cd") = false)
    (h2 : strContains col "cnty_cd" = true)
    (h3 : strContains col "sale_regn_cd" = false)
    (h4 : strContains col "prim_msa_cd" = false)
    (h5 : strContains col "prim_census_tract_cd" = false)
    (h6 : (strContains col "customer_id" || strContains col "_cust_id") = false)
    (h7 : (strContains col "lnprps_cd" || strContains col "uw_desgntn_cd") = false) :
    padApply col v = zfill v 3 := by
  simp only [padApply, h1, h2, h3, h4, h5, h6, h7, Bool.false_eq_true, if_false, if_true]

theorem padApply_sale_only (col : String) (v : Val)
    (h1 : (strContains col "zip_cd" || strContains col "cbsa_cd") = false)
    (h2 : strContains col "cnty_cd" = false)
    (h3 : strContains col "sale_regn_cd" = true)
    (h4 : strContains col "prim_msa_cd" = false)
    (h5 : strContains col "prim_census_tract_cd" = false)
    (h6 : (strContains col "customer_id" || strContains col "_cust_id") = false)
    (h7 : (strContains col "lnprps_cd" || strContains col "uw_desgntn_cd") = false) :
    padApply col v = zfill v 2 := by
  simp only [padApply, h1, h2, h3, h4, h5, h6, h7, Bool.false_eq_true, if_false, if_true]

theorem padApply_msa_only (col : String) (v : Val)
    (h1 : (strContains col "zip_cd" || strContains col "cbsa_cd") = false)
    (h2 : strContains col "cnty_cd" = false)
    (h3 : strContains col "sale_regn_cd" = false)
    (h4 : strContains col "prim_msa_cd" = true)
    (h5 : strContains col "prim_census_tract_cd" = false)
    (h6 : (strContains col "customer_id" || strContains col "_cust_id") = false)
    (h7 : (strContains col "lnprps_cd" || strContains col "uw_desgntn_cd") = false) :
    padApply col v = zfill v 4 := by
  simp only [padApply, h1, h2, h3, h4, h5, h6, h7, Bool.false_eq_true, if_false, if_true]

theorem padApply_census_only (col : String) (v : Val)
    (h1 : (strContains col "zip_cd" || strContains col "cbsa_cd") = false)
    (h2 : strContains col "cnty_cd" = false)
    (h3 : strContains col "sale_regn_cd" = false)
    (h4 : strContains col "prim_msa_cd" = false)
    (h5 : strContains col "prim_census_tract_cd" = true)
    (h6 : (strContains col "customer_id" || strContains col "_cust_id") = false)
    (h7 : (strContains col "lnprps_cd" || strContains col "uw_desgntn_cd") = false) :
    padApply col v = zfill (pyMul100 v) 6 := by
  simp only [padApply, h1, h2, h3, h4, h5, h6, h7, Bool.false_eq_true, if_false, if_true]

theorem padApply_cust_only (col : String) (v : Val)
    (h1 : (strContains col "zip_cd" || strContains col "cbsa_cd") = false)
    (h2 : strContains col "cnty_cd" = false)
    (h3 : strContains col "sale_regn_cd" = false)
    (h4 : strContains col "prim_msa_cd" = false)
    (h5 : strContains col "prim_census_tract_cd" = false)
    (h6 : (strContains col "customer_id" || strContains col "_cust_id") = true)
    (h7 : (strContains col "lnprps_cd" || strContains col "uw_desgntn_cd") = false) :
    padApply col v = zfill v 10 := by
  simp only [padApply, h1, h2, h3, h4, h5, h6, h7, Bool.false_eq_true, if_false, if_true]

theorem padApply_unk_only (col : String) (v : Val)
    (h1 : (strContains col "zip_cd" || strContains col "cbsa_cd") = false)
    (h2 : strContains col "cnty_cd" = false)
    (h3 : strContains col "sale_regn_cd" = false)
    (h4 : strContains col "prim_msa_cd" = false)
    (h5 : strContains col "prim_census_tract_cd" = false)
    (h6 : (strContains col "customer_id" || strContains col "_cust_id") = false)
    (h7 : (strContains col "lnprps_cd" || strContains col "uw_desgntn_cd") = true) :
    padApply col v = if v = Val.vstr "UNK" then v else zfill v 2 := by
  simp only [padApply, h1, h2, h3, h4, h5, h6, h7, Bool.false_eq_true, if_false, if_true]

/-- `zfill` leaves values whose decimal form is at or beyond the width
unchanged. -/
theorem zfill_of_le (v : Val) (w : Nat) (h : w ≤ (toDec v).length) :
    zfill v w = .vstr (toDec v) := by
  rw [zfill_eq, padZeros_of_le h]

theorem hasCol_of_getCol (f : Frame) (c : String) (vs : List Val)
    (h : getCol f c = some vs) : hasCol f c = true := by
  cases hh : hasCol f c
  · rw [getCol_eq_none f c hh] at h
    exact Option.noConfusion h
  · rfl

/-! ## Sanity examples (claims evaluated on concrete inputs) -/

example : padApply "zip_cd" (.vint 123) = .vstr "00123" := by decide
example : padApply "zip_cd" (.vint 123456) = .vstr "123456" := by decide
example : padApply "prim_census_tract_cd" (.vint 5) = .vstr "000500" := by decide
example : padApply "lnprps_cd" (.vstr "UNK") = .vstr "UNK" := by decide
example : padApply "sale_regn_cd" (.vint 7) = .vstr "07" := by decide
example : padApply "customer_id" (.vint 42) = .vstr "0000000042" := by decide
example : isTemporal "event_date" = true := by decide
example : parseDate "not-a-date" = none := by decide
example : parseDate "2020-01-01" = some 20200101 := by decide
example : to_datetime (.vstr "not-a-date") = .error .parseError := by decide

example :
    cast_dataframe [("zip_cd", "string"), ("event_date", "timestamp")]
      [("zip_cd", [.vint 123]), ("event_date", [.vstr "not-a-date"])]
    = .error (.parseError, [("zip_cd", [.vstr "00123"]), ("event_date", [.vstr "not-a-date"])]) := by
  decide

example :
    cast_dataframe [("prim_census_tract_cd", "int")]
      [("prim_census_tract_cd", [.vint 123456])]
    = .ok [("prim_census_tract_cd", [.vint 12345600])] := by decide

example :
    cast_dataframe [("prim_census_tract_cd", "int")]
      [("prim_census_tract_cd", [.vint 12345600])]
    = .ok [("prim_census_tract_cd", [.vint 1234560000])] := by decide

/-! ## The claims -/

/-- Claim C1, counterexample: normalization is not atomic.  On a frame with
a `zip_cd` column followed by an unparsable `event_date` column,
`cast_dataframe` raises `ParseError`, yet the frame the caller sees at
raise time already holds the normalized `zip_cd` column — it is not the
pre-call frame. -/
theorem claim_C1_cex :
    cast_dataframe [("zip_cd", "string"), ("event_date", "timestamp")]
        [("zip_cd", [Val.vint 123]), ("event_date", [Val.vstr "not-a-date"])]
      = .error (.parseError,
          [("zip_cd", [Val.vstr "00123"]), ("event_date", [Val.vstr "not-a-date"])]) ∧
    [("zip_cd", [Val.vstr "00123"]), ("event_date", [Val.vstr "not-a-date"])]
      ≠ [("zip_cd", [Val.vint 123]), ("event_date", [Val.vstr "not-a-date"])] := by
  exact ⟨by decide, by decide⟩

/-- Claim C1 (amended): normalization fails fast but not atomically.  When
every column of a schema prefix processes successfully and the next
processed column raises, the whole call raises that error, and the frame
visible to the caller is exactly the frame mutated through the successful
prefix plus the failing column's completed steps — not the caller's
pre-call frame. -/
theorem claim_C1_amended (s₁ s₂ : Schema) (c ty : String) (f g g₂ : Frame) (e : Err)
    (h1 : cast_dataframe s₁ f = .ok g) (h2 : hasCol g c = true)
    (h3 : processColumn g c ty = .error (e, g₂)) :
    cast_dataframe (s₁ ++ (c, ty) :: s₂) f = .error (e, g₂) :=
  cast_dataframe_error_after_ok s₁ s₂ c ty f g g₂ e h1 h2 h3

/-- Claim C1, witness: the amended statement evaluated on the
counterexample data. -/
theorem claim_C1_witness :
    cast_dataframe ([("zip_cd", "string")] ++ ("event_date", "timestamp") :: [])
        [("zip_cd", [Val.vint 123]), ("event_date", [Val.vstr "not-a-date"])]
      = .error (.parseError,
          [("zip_cd", [Val.vstr "00123"]), ("event_date", [Val.vstr "not-a-date"])]) :=
  claim_C1_amended [("zip_cd", "string")] [] "event_date" "timestamp"
    [("zip_cd", [Val.vint 123]), ("event_date", [Val.vstr "not-a-date"])]
    [("zip_cd", [Val.vstr "00123"]), ("event_date", [Val.vstr "not-a-date"])]
    [("zip_cd", [Val.vstr "00123"]), ("event_date", [Val.vstr "not-a-date"])]
    .parseError (by decide) (by decide) (by decide)

/-- Claim C2, counterexample: idempotence fails for `prim_census_tract_cd`
even on a value already at the target width 6: the rule multiplies by 100
on every pass, so a second normalization changes the frame again. -/
theorem claim_C2_cex :
    cast_dataframe [("prim_census_tract_cd", "int")]
        [("prim_census_tract_cd", [Val.vint 123456])]
      = .ok [("prim_census_tract_cd", [Val.vint 12345600])] ∧
    cast_dataframe [("prim_census_tract_cd", "int")]
        [("prim_census_tract_cd", [Val.vint 12345600])]
      = .ok [("prim_census_tract_cd", [Val.vint 1234560000])] ∧
    [("prim_census_tract_cd", [Val.vint 1234560000])]
      ≠ [("prim_census_tract_cd", [Val.vint 12345600])] ∧
    (toDec (Val.vint 123456)).length = 6 := by
  exact ⟨by decide, by decide, by decide, by decide⟩

/-- Claim C2 (amended): normalization is idempotent — for every frame and
schema with duplicate-free column names in which no schema column name
contains `prim_census_tract_cd`, a successful normalization is a fixed
point: normalizing the result again succeeds and returns it unchanged (no
already-at-width restriction is needed; only for `prim_census_tract_cd`,
whose ×100 multiply re-applies on every pass, does idempotence fail). -/
theorem claim_C2_amended (s : Schema) (f g : Frame)
    (hf : (f.map Prod.fst).Nodup) (hs : (s.map Prod.fst).Nodup)
    (hcen : ∀ p ∈ s, strContains p.1 "prim_census_tract_cd" = false)
    (h : cast_dataframe s f = .ok g) :
    cast_dataframe s g = .ok g :=
  cast_dataframe_idem s f g hf hs hcen h

/-- Claim C2, witness: the amended idempotence evaluated on a `zip_cd`
column whose value is already at the target width, and on a
`zip_cd_update` column that is simultaneously temporal (it ends with
`date`) and padding-matched (it contains `zip_cd`). -/
theorem claim_C2_witness :
    cast_dataframe [("zip_cd", "string")] [("zip_cd", [Val.vint 12345])]
      = .ok [("zip_cd", [Val.vstr "12345"])] ∧
    cast_dataframe [("zip_cd", "string")] [("zip_cd", [Val.vstr "12345"])]
      = .ok [("zip_cd", [Val.vstr "12345"])] ∧
    cast_dataframe [("zip_cd_update", "timestamp")]
        [("zip_cd_update", [Val.vstr "2020-01-01"])]
      = .ok [("zip_cd_update", [Val.vdate 20200101])] ∧
    cast_dataframe [("zip_cd_update", "timestamp")]
        [("zip_cd_update", [Val.vdate 20200101])]
      = .ok [("zip_cd_update", [Val.vdate 20200101])] :=
  ⟨by decide,
   claim_C2_amended [("zip_cd", "string")] [("zip_cd", [Val.vint 12345])]
     [("zip_cd", [Val.vstr "12345"])] (by decide) (by decide) (by decide) (by decide),
   by decide,
   claim_C2_amended [("zip_cd_update", "timestamp")]
     [("zip_cd_update", [Val.vstr "2020-01-01"])]
     [("zip_cd_update", [Val.vdate 20200101])] (by decide) (by decide) (by decide)
     (by decide)⟩

/-- Claim C3: padding converts a value to its decimal string form and
left-pads it with `'0'` to the matched rule's fixed width — 5 for
`zip_cd`/`cbsa_cd`, 3 for `cnty_cd`, 2 for `sale_regn_cd`, 4 for
`prim_msa_cd`, 6 for `prim_census_tract_cd` (after its ×100 pre-multiply),
10 for `customer_id`/`_cust_id`, 2 for `lnprps_cd`/`uw_desgntn_cd` — and a
value already at or beyond the width is left unchanged, never truncated
(`zip_cd` 123 → "00123", 123456 → "123456"). -/
theorem claim_C3 :
    (∀ (v : Val) (w : Nat), zfill v w = .vstr (padZeros w (toDec v))) ∧
    (∀ (w : Nat) (s : String),
      (padZeros w s).data = List.replicate (w - s.length) '0' ++ s.data ∧
      (padZeros w s).length = max w s.length) ∧
    (∀ (v : Val) (w : Nat), w ≤ (toDec v).length → zfill v w = .vstr (toDec v)) ∧
    (∀ (col : String) (v : Val),
      (strContains col "zip_cd" || strContains col "cbsa_cd") = true →
      strContains col "cnty_cd" = false → strContains col "sale_regn_cd" = false →
      strContains col "prim_msa_cd" = false →
      strContains col "prim_census_tract_cd" = false →
      (strContains col "customer_id" || strContains col "_cust_id") = false →
      (strContains col "lnprps_cd" || strContains col "uw_desgntn_cd") = false →
      padApply col v = zfill v 5) ∧
    (∀ (col : String) (v : Val),
      (strContains col "zip_cd" || strContains col "cbsa_cd") = false →
      strContains col "cnty_cd" = true → strContains col "sale_regn_cd" = false →
      strContains col "prim_msa_cd" = false →
      strContains col "prim_census_tract_cd" = false →
      (strContains col "customer_id" || strContains col "_cust_id") = false →
      (strContains col "lnprps_cd" || strContains col "uw_desgntn_cd") = false →
      padApply col v = zfill v 3) ∧
    (∀ (col : String) (v : Val),
      (strContains col "zip_cd" || strContains col "cbsa_cd") = false →
      strContains col "cnty_cd" = false → strContains col "sale_regn_cd" = true →
      strContains col "prim_msa_cd" = false →
      strContains col "prim_census_tract_cd" = false →
      (strContains col "customer_id" || strContains col "_cust_id") = false →
      (strContains col "lnprps_cd" || strContains col "uw_desgntn_cd") = false →
      padApply col v = zfill v 2) ∧
    (∀ (col : String) (v : Val),
      (strContains col "zip_cd" || strContains col "cbsa_cd") = false →
      strContains col "cnty_cd" = false → strContains col "sale_regn_cd" = false →
      strContains col "prim_msa_cd" = true →
      strContains col "prim_census_tract_cd" = false →
      (strContains col "customer_id" || strContains col "_cust_id") = false →
      (strContains col "lnprps_cd" || strContains col "uw_desgntn_cd") = false →
      padApply col v = zfill v 4) ∧
    (∀ (col : String) (v : Val),
      (strContains col "zip_cd" || strContains col "cbsa_cd") = false →
      strContains col "cnty_cd" = false → strContains col "sale_regn_cd" = false →
      strContains col "prim_msa_cd" = false →
      strContains col "prim_census_tract_cd" = true →
      (strContains col "customer_id" || strContains col "_cust_id") = false →
      (strContains col "lnprps_cd" || strContains col "uw_desgntn_cd") = false →
      padApply col v = zfill (pyMul100 v) 6) ∧
    (∀ (col : String) (v : Val),
      (strContains col "zip_cd" || strContains col "cbsa_cd") = false →
      strContains col "cnty_cd" = false → strContains col "sale_regn_cd" = false →
      strContains col "prim_msa_cd" = false →
      strContains col "prim_census_tract_cd" = false →
      (strContains col "customer_id" || strContains col "_cust_id") = true →
      (strContains col "lnprps_cd" || strContains col "uw_desgntn_cd") = false →
      padApply col v = zfill v 10) ∧
    (∀ (col : String) (v : Val),
      (strContains col "zip_cd" || strContains col "cbsa_cd") = false →
      strContains col "cnty_cd" = false → strContains col "sale_regn_cd" = false →
      strContains col "prim_msa_cd" = false →
      strContains col "prim_census_tract_cd" = false →
      (strContains col "customer_id" || strContains col "_cust_id") = false →
      (strContains col "lnprps_cd" || strContains col "uw_desgntn_cd") = true →
      v ≠ Val.vstr "UNK" → padApply col v = zfill v 2) ∧
    padApply "zip_cd" (Val.vint 123) = .vstr "00123" ∧
    padApply "zip_cd" (Val.vint 123456) = .vstr "123456" ∧
    padApply "customer_id" (Val.vint 42) = .vstr "0000000042" := by
  refine ⟨fun v w => rfl, fun w s => ⟨rfl, length_padZeros w s⟩, zfill_of_le,
    padApply_zip_only, padApply_cnty_only, padApply_sale_only, padApply_msa_only,
    padApply_census_only, padApply_cust_only, ?_, by decide, by decide, by decide⟩
  intro col v h1 h2 h3 h4 h5 h6 h7 hne
  rw [padApply_unk_only col v h1 h2 h3 h4 h5 h6 h7, if_neg hne]

/-- Claim C3, witness: the width-table statements instantiated at concrete
columns and values, each hypothesis discharged by evaluation. -/
theorem claim_C3_witness :
    padApply "zip_cd" (Val.vint 123) = zfill (Val.vint 123) 5 ∧
    padApply "cnty_cd" (Val.vint 1) = zfill (Val.vint 1) 3 ∧
    padApply "sale_regn_cd" (Val.vint 7) = zfill (Val.vint 7) 2 ∧
    padApply "prim_msa_cd" (Val.vint 7) = zfill (Val.vint 7) 4 ∧
    padApply "prim_census_tract_cd" (Val.vint 5) = zfill (pyMul100 (Val.vint 5)) 6 ∧
    padApply "customer_id" (Val.vint 42) = zfill (Val.vint 42) 10 ∧
    padApply "lnprps_cd" (Val.vint 7) = zfill (Val.vint 7) 2 ∧
    zfill (Val.vint 123456) 5 = .vstr (toDec (Val.vint 123456)) := by
  obtain ⟨z1, z2, z3, r1, r2, r3, r4, r5, r6, r7, e1, e2, e3⟩ := claim_C3
  exact ⟨r1 "zip_cd" _ (by decide) (by decide) (by decide) (by decide) (by decide)
      (by decide) (by decide),
    r2 "cnty_cd" _ (by decide) (by decide) (by decide) (by decide) (by decide)
      (by decide) (by decide),
    r3 "sale_regn_cd" _ (by decide) (by decide) (by decide) (by decide) (by decide)
      (by decide) (by decide),
    r4 "prim_msa_cd" _ (by decide) (by decide) (by decide) (by decide) (by decide)
      (by decide) (by decide),
    r5 "prim_census_tract_cd" _ (by decide) (by decide) (by decide) (by decide)
      (by decide) (by decide) (by decide),
    r6 "customer_id" _ (by decide) (by decide) (by decide) (by decide) (by decide)
      (by decide) (by decide),
    r7 "lnprps_cd" _ (by decide) (by decide) (by decide) (by decide) (by decide)
      (by decide) (by decide) (by decide),
    z3 (Val.vint 123456) 5 (by decide)⟩

/-- Claim C4: a column matching (only) the `prim_census_tract_cd` rule has
each value multiplied by 100 before being zero-padded to width 6; input 5
yields "000500". -/
theorem claim_C4 :
    (∀ (col : String) (v : Val),
      (strContains col "zip_cd" || strContains col "cbsa_cd") = false →
      strContains col "cnty_cd" = false → strContains col "sale_regn_cd" = false →
      strContains col "prim_msa_cd" = false →
      strContains col "prim_census_tract_cd" = true →
      (strContains col "customer_id" || strContains col "_cust_id") = false →
      (strContains col "lnprps_cd" || strContains col "uw_desgntn_cd") = false →
      padApply col v = zfill (pyMul100 v) 6) ∧
    (∀ n : Int, pyMul100 (Val.vint n) = Val.vint (100 * n)) ∧
    padApply "prim_census_tract_cd" (Val.vint 5) = .vstr "000500" := by
  exact ⟨padApply_census_only, fun n => rfl, by decide⟩

/-- Claim C4, witness: the census rule instantiated at input 5. -/
theorem claim_C4_witness :
    padApply "prim_census_tract_cd" (Val.vint 5) = zfill (pyMul100 (Val.vint 5)) 6 ∧
    zfill (pyMul100 (Val.vint 5)) 6 = .vstr "000500" :=
  ⟨claim_C4.1 "prim_census_tract_cd" (Val.vint 5) (by decide) (by decide) (by decide)
      (by decide) (by decide) (by decide) (by decide),
   by decide⟩

/-- Claim C5: under a column matching (only) the
`lnprps_cd`/`uw_desgntn_cd` rule the literal string "UNK" passes through
unmodified and every other value is zero-padded to width 2; a
`sale_regn_cd` column pads 7 to "07". -/
theorem claim_C5 :
    (∀ (col : String) (v : Val),
      (strContains col "zip_cd" || strContains col "cbsa_cd") = false →
      strContains col "cnty_cd" = false → strContains col "sale_regn_cd" = false →
      strContains col "prim_msa_cd" = false →
      strContains col "prim_census_tract_cd" = false →
      (strContains col "customer_id" || strContains col "_cust_id") = false →
      (strContains col "lnprps_cd" || strContains col "uw_desgntn_cd") = true →
      padApply col v = if v = Val.vstr "UNK" then v else zfill v 2) ∧
    padApply "lnprps_cd" (Val.vstr "UNK") = .vstr "UNK" ∧
    padApply "uw_desgntn_cd" (Val.vstr "UNK") = .vstr "UNK" ∧
    padApply "uw_desgntn_cd" (Val.vint 7) = .vstr "07" ∧
    padApply "sale_regn_cd" (Val.vint 7) = .vstr "07" := by
  exact ⟨padApply_unk_only, by decide, by decide, by decide, by decide⟩

/-- Claim C5, witness: the UNK rule instantiated at "UNK" and at 7. -/
theorem claim_C5_witness :
    padApply "lnprps_cd" (Val.vstr "UNK")
      = (if Val.vstr "UNK" = Val.vstr "UNK" then Val.vstr "UNK"
         else zfill (Val.vstr "UNK") 2) ∧
    padApply "lnprps_cd" (Val.vint 7)
      = (if Val.vint 7 = Val.vstr "UNK" then Val.vint 7 else zfill (Val.vint 7) 2) :=
  ⟨claim_C5.1 "lnprps_cd" (Val.vstr "UNK") (by decide) (by decide) (by decide)
      (by decide) (by decide) (by decide) (by decide),
   claim_C5.1 "lnprps_cd" (Val.vint 7) (by decide) (by decide) (by decide)
      (by decide) (by decide) (by decide) (by decide)⟩

/-- Claim C6: the temporal columns are exactly those whose name ends with
`date`, `_dt`, `_ts`, `_date_time` or `_timestamp`; on such columns every
successfully parsed value is stored as a typed timestamp; a value that
fails to parse makes the whole call raise `ParseError` (its visible-frame
effect is claim C1's), and every `to_datetime` failure is a `ParseError`;
columns without these suffixes get no temporal transform. -/
theorem claim_C6 :
    (∀ col : String, isTemporal col =
      (strEndsWith col "date" || strEndsWith col "_dt" || strEndsWith col "_ts" ||
        strEndsWith col "_date_time" || strEndsWith col "_timestamp")) ∧
    (∀ v w : Val, to_datetime v = .ok w → ∃ d, w = .vdate d) ∧
    (∀ (v : Val) (e : Err), to_datetime v = .error e → e = .parseError) ∧
    (∀ (s₁ s₂ : Schema) (c ty : String) (f g : Frame) (vs : List Val) (v : Val),
      cast_dataframe s₁ f = .ok g → getCol g c = some vs → isTemporal c = true →
      v ∈ vs → to_datetime v = .error .parseError →
      ∃ g₂, cast_dataframe (s₁ ++ (c, ty) :: s₂) f = .error (.parseError, g₂)) ∧
    (∀ (col ty : String) (vs : List Val), isTemporal col = false →
      columnPipeline col ty vs = castSeriesType (vs.map (padApply col)) ty) := by
  refine ⟨fun col => rfl, fun v w h => to_datetime_ok h,
    fun v e h => to_datetime_error h, ?_, ?_⟩
  · intro s₁ s₂ c ty f g vs v h1 h2 h3 hv he
    have hcg : hasCol g c = true := hasCol_of_getCol g c vs h2
    obtain ⟨e', he'⟩ := mapME_has_error to_datetime vs v .parseError hv he
    have he2 : e' = .parseError := by
      obtain ⟨v0, _, hgv0⟩ := mapME_error_ex to_datetime vs e' he'
      exact to_datetime_error hgv0
    rw [he2] at he'
    exact ⟨g, cast_dataframe_error_after_ok s₁ s₂ c ty f g g .parseError h1 hcg
      (processColumn_temporal_error g c ty vs .parseError h2 h3 he')⟩
  · intro col ty vs h
    unfold columnPipeline
    rw [if_neg (by rw [h]; exact Bool.false_ne_true)]

/-- Claim C6, witness: an unparsable `event_date` value raises
`ParseError`, and `zip_cd` is not a temporal column. -/
theorem claim_C6_witness :
    (∃ g₂, cast_dataframe ([] ++ ("event_date", "timestamp") :: [])
        [("event_date", [Val.vstr "not-a-date"])] = .error (.parseError, g₂)) ∧
    isTemporal "event_date" = true ∧ isTemporal "zip_cd" = false := by
  obtain ⟨a, b, c, d, e⟩ := claim_C6
  exact ⟨d [] [] "event_date" "timestamp" [("event_date", [Val.vstr "not-a-date"])]
      [("event_date", [Val.vstr "not-a-date"])] [Val.vstr "not-a-date"]
      (Val.vstr "not-a-date") rfl (by decide) (by decide) (by decide) (by decide),
    by decide, by decide⟩

/-- Claim C7: a schema entry whose column is absent from the frame is
skipped without error (processing continues as if the entry were not
there), and a frame column named by no schema entry is left entirely
untouched, whether the call returns or raises. -/
theorem claim_C7 :
    (∀ (n ty : String) (s : Schema) (f : Frame), hasCol f n = false →
      cast_dataframe ((n, ty) :: s) f = cast_dataframe s f) ∧
    (∀ (s : Schema) (f : Frame) (c : String), (∀ p ∈ s, p.1 ≠ c) →
      getCol (visibleFrame (cast_dataframe s f)) c = getCol f c) :=
  ⟨cast_dataframe_skip, cast_dataframe_untouched⟩

/-- Claim C7, witness: a ghost schema entry is skipped, and a column
outside the schema keeps its values. -/
theorem claim_C7_witness :
    cast_dataframe [("ghost", "int")] [("keep_me", [Val.vint 9])]
      = cast_dataframe [] [("keep_me", [Val.vint 9])] ∧
    getCol (visibleFrame (cast_dataframe [("zip_cd", "string")]
        [("zip_cd", [Val.vint 1]), ("keep_me", [Val.vint 9])])) "keep_me"
      = getCol [("zip_cd", [Val.vint 1]), ("keep_me", [Val.vint 9])] "keep_me" :=
  ⟨claim_C7.1 "ghost" "int" [] [("keep_me", [Val.vint 9])] (by decide),
   claim_C7.2 [("zip_cd", "string")] [("zip_cd", [Val.vint 1]), ("keep_me", [Val.vint 9])]
     "keep_me" (by decide)⟩

/-- Claim C8: the source's if-chain of padding rules equals the spec's
ordered rule table applied in table order, every matching rule feeding the
next (the rules are not mutually exclusive); concretely, a column matching
both the `customer_id` rule and the `lnprps_cd` rule chains them, so the
UNK passthrough sees the already-padded value. -/
theorem claim_C8 :
    (∀ (col : String) (v : Val), padApply col v = applyRules padRules col v) ∧
    padApply "lnprps_cd_customer_id" (Val.vstr "UNK") = .vstr "0000000UNK" ∧
    applyRules padRules "lnprps_cd_customer_id" (Val.vstr "UNK") = .vstr "0000000UNK" :=
  ⟨padApply_eq_applyRules, by decide, by decide⟩

/-- Claim C9: after a successful normalization, for every schema column
present in the frame (schema names duplicate-free), the stored column
consists of fixed points of the type cast for the schema-declared type —
the final coercion step ran on it, whatever earlier steps applied. -/
theorem claim_C9 (s : Schema) (f g : Frame) (hs : (s.map Prod.fst).Nodup)
    (h : cast_dataframe s f = .ok g) :
    ∀ c ty, (c, ty) ∈ s → hasCol f c = true →
      ∃ vs, getCol g c = some vs ∧ ∀ v ∈ vs, castVal v ty = .ok v :=
  cast_dataframe_types s f g hs h

/-- Claim C9, witness: a padded-then-cast `zip_cd` integer column conforms
to its declared integer type. -/
theorem claim_C9_witness :
    ∃ vs, getCol [("zip_cd", [Val.vint 123])] "zip_cd" = some vs ∧
      ∀ v ∈ vs, castVal v "int" = .ok v :=
  claim_C9 [("zip_cd", "int")] [("zip_cd", [Val.vint 123])] [("zip_cd", [Val.vint 123])]
    (by decide) (by decide) "zip_cd" "int" (by decide) (by decide)

/-- Claim C10: a successful normalization preserves the frame's shape —
the returned frame has the same column names in the same order; for a
frame with duplicate-free column names every column keeps its number of
rows, pairwise in order; for every schema column present in the frame
(schema names duplicate-free) the stored column corresponds to the
original row by row, in position: output row `i` is the optional temporal
parse, padding and type cast of input row `i` — no rows are added,
dropped or reordered; and columns outside the schema keep their values
verbatim. -/
theorem claim_C10 (s : Schema) (f g : Frame)
    (hf : (f.map Prod.fst).Nodup) (hs : (s.map Prod.fst).Nodup)
    (h : cast_dataframe s f = .ok g) :
    g.map Prod.fst = f.map Prod.fst ∧
    List.Forall₂ SameShape g f ∧
    (∀ c ty, (c, ty) ∈ s → hasCol f c = true →
      ∃ vs us, getCol f c = some vs ∧ getCol g c = some us ∧
        List.Forall₂ (fun v u => ∃ w,
          (if isTemporal c then to_datetime v else .ok v) = .ok w ∧
          castVal (padApply c w) ty = .ok u) vs us) ∧
    (∀ c, (∀ p ∈ s, p.1 ≠ c) → getCol g c = getCol f c) := by
  refine ⟨cast_dataframe_ok_fst s f g h, cast_dataframe_shape s f g hf h, ?_, ?_⟩
  · intro c ty hmem hcf
    obtain ⟨vs, us, h1, h2, h3⟩ := cast_dataframe_rows s f g hs h c ty hmem hcf
    exact ⟨vs, us, h1, h2, columnPipeline_rows c ty vs us h3⟩
  · intro c hcn
    exact cast_dataframe_notin_get s f g c h hcn

/-- Claim C10, witness: shape and row correspondence on a two-column
frame with one processed and one untouched column. -/
theorem claim_C10_witness :
    [("zip_cd", [Val.vstr "00123"]), ("keep_me", [Val.vint 9])].map Prod.fst
      = [("zip_cd", [Val.vint 123]), ("keep_me", [Val.vint 9])].map Prod.fst ∧
    List.Forall₂ SameShape [("zip_cd", [Val.vstr "00123"]), ("keep_me", [Val.vint 9])]
      [("zip_cd", [Val.vint 123]), ("keep_me", [Val.vint 9])] ∧
    (∀ c ty, (c, ty) ∈ [("zip_cd", "string")] →
      hasCol [("zip_cd", [Val.vint 123]), ("keep_me", [Val.vint 9])] c = true →
      ∃ vs us, getCol [("zip_cd", [Val.vint 123]), ("keep_me", [Val.vint 9])] c = some vs ∧
        getCol [("zip_cd", [Val.vstr "00123"]), ("keep_me", [Val.vint 9])] c = some us ∧
        List.Forall₂ (fun v u => ∃ w,
          (if isTemporal c then to_datetime v else .ok v) = .ok w ∧
          castVal (padApply c w) ty = .ok u) vs us) ∧
    (∀ c, (∀ p ∈ [("zip_cd", "string")], p.1 ≠ c) →
      getCol [("zip_cd", [Val.vstr "00123"]), ("keep_me", [Val.vint 9])] c
        = getCol [("zip_cd", [Val.vint 123]), ("keep_me", [Val.vint 9])] c) :=
  claim_C10 [("zip_cd", "string")]
    [("zip_cd", [Val.vint 123]), ("keep_me", [Val.vint 9])]
    [("zip_cd", [Val.vstr "00123"]), ("keep_me", [Val.vint 9])]
    (by decide) (by decide) (by decide)

end AthenaTable
